import Mathlib

/-!
Verification of the fetch-cache-transform-query pipeline of the ahaan-thai
MCP server.  JavaScript strings are embedded as `List Char`; JSON records are
embedded as Lean structures with `Option` fields (a `none` field models an
absent key, mirroring the documented data model of the four domains).  JS
object key iteration is modelled by association lists in insertion order
(all keys occurring in these datasets are non-numeric strings, for which JS
enumeration order is insertion order).  JS truthiness is modelled explicitly
where the code relies on it: an empty string and the number 0 are falsy,
objects and arrays are always truthy.
-/

/-- JavaScript strings are modelled as lists of characters. -/
abbrev Str := List Char

/-- Coerce a Lean string literal into the character-list model. -/
def strL (s : String) : Str := s.data

/-- JS `toLowerCase`, restricted to ASCII letters (the only case-carrying
characters appearing in the claims; Thai script has no letter case). -/
def jsLowerChar (c : Char) : Char :=
  if 65 ≤ c.toNat ∧ c.toNat ≤ 90 then Char.ofNat (c.toNat + 32) else c

/-- Lowercase an embedded JS string. -/
def lowerStr (s : Str) : Str := s.map jsLowerChar

/-- JS `subject.includes(pattern)`: substring containment. -/
def containsSub : Str → Str → Bool
  | [], pat => pat.isEmpty
  | c :: t, pat => pat.isPrefixOf (c :: t) || containsSub t pat

/-- JS `s.startsWith(pre)`. -/
def startsWithStr (pre s : Str) : Bool := pre.isPrefixOf s

/-- White-space recognised by JS `String.prototype.trim` (ASCII portion:
space, tab, line feed, vertical tab, form feed, carriage return). -/
def isWsChar (c : Char) : Bool :=
  c.toNat = 32 || c.toNat = 9 || c.toNat = 10 || c.toNat = 11 || c.toNat = 12 || c.toNat = 13

/-- JS `s.trim()`. -/
def trimStr (s : Str) : Str :=
  ((s.dropWhile isWsChar).reverse.dropWhile isWsChar).reverse

/-- The TTL cache of `cache.js`: one data slot, one timestamp, a fixed ttl.
Timestamps are `Date.now()` values; the clock is passed explicitly. -/
structure JsCache (α : Type) where
  ttl : Int
  data : Option α
  timestamp : Option Int
  deriving DecidableEq

/-- `new Cache(ttl)`. -/
def mkCache (α : Type) (ttl : Int) : JsCache α := ⟨ttl, none, none⟩

/-- `Cache.get()` at clock position `now`.  The source tests
`this.data && this.timestamp && Date.now() - this.timestamp < this.ttl`:
the data slot must be non-null (the cached datasets are JS objects/arrays,
which are always truthy), the timestamp must be truthy — i.e. non-null and,
since 0 is a falsy number, non-zero — and the age must be below the ttl. -/
def cacheGet (c : JsCache α) (now : Int) : Option α :=
  match c.data, c.timestamp with
  | some d, some t => if t ≠ 0 ∧ now - t < c.ttl then some d else none
  | _, _ => none

/-- `Cache.set(data)` performed at clock position `now`. -/
def cacheSet (c : JsCache α) (x : α) (now : Int) : JsCache α :=
  { c with data := some x, timestamp := some now }

/-- `Cache.clear()`. -/
def cacheClear (c : JsCache α) : JsCache α :=
  { c with data := none, timestamp := none }

/-- `Cache.isValid()` (uses explicit `!== null` checks, not truthiness). -/
def cacheIsValid (c : JsCache α) (now : Int) : Bool :=
  c.data.isSome && (match c.timestamp with
    | some t => decide (now - t < c.ttl)
    | none => false)

/-- A book record of the book-info domain (fields per the documented data
model; `none` models an absent key). -/
structure Book where
  shop : Option Str
  target : Option Str
  url : Option Str
  title : Option Str
  author : Option Str
  lang : Option Str
  isbn : Option Str
  publisher : Option Str
  description : Option Str
  location : Option Str
  image : Option Str
  text : Option Str
  year : Option Int
  level : Option Int
  deriving DecidableEq

/-- `AMAZON_URL_PREFIX` of `book-info-logic.js`. -/
def amazonUrlPre : Str := strL (r"https://amzn.to/")

/-- `processBookData` of `book-info-logic.js`: when `shop === 'amazon'` and
`target` is truthy (non-empty) with a non-empty trim, synthesize `url` and
delete `target`; otherwise the spread copy leaves the record unchanged. -/
def processBookData (b : Book) : Book :=
  match b.target with
  | some t =>
      if b.shop == some (strL (r"amazon")) && !t.isEmpty && !(trimStr t).isEmpty then
        { b with url := some (amazonUrlPre ++ t), target := none }
      else b
  | none => b

/-- A recipe record of the library domain. -/
structure Recipe where
  url_de : Option Str
  url_en : Option Str
  imageUrl : Option Str
  title_de : Option Str
  title_en : Option Str
  transcript_de : Option Str
  thai : Option Str
  region : Option Str
  deriving DecidableEq

/-- `URL_PREFIX_DE_EN` of the library logic. -/
def urlPreDeEn : Str := strL (r"https://www.ahaan-thai.de")

/-- `IMAGE_URL_PREFIX` of the library logic. -/
def imgUrlBase : Str := strL (r"https://bilder.koch-reis.de/")

/-- Rewrite of a relative `url_de`/`url_en` value: prefix the site base and
insert a `/` separator only when the value does not already begin with one. -/
def procRelUrl (v : Str) : Str :=
  urlPreDeEn ++ (if startsWithStr (strL (r"/")) v then [] else strL (r"/")) ++ v

/-- Field-level handling of `url_de`/`url_en` in `processRecipeUrls`:
the guard `if (x && !x.startsWith('http'))` skips absent, empty (falsy)
and already-absolute values. -/
def procUrlField : Option Str → Option Str
  | none => none
  | some v =>
      if !v.isEmpty && !startsWithStr (strL (r"http")) v then some (procRelUrl v) else some v

/-- Rewrite of a relative `imageUrl` value: prefix the image base after
stripping one leading `/` (`substring(1)`). -/
def procImgUrl (v : Str) : Str :=
  imgUrlBase ++ (if startsWithStr (strL (r"/")) v then v.drop 1 else v)

/-- Field-level handling of `imageUrl` in `processRecipeUrls`. -/
def procImgField : Option Str → Option Str
  | none => none
  | some v =>
      if !v.isEmpty && !startsWithStr (strL (r"http")) v then some (procImgUrl v) else some v

/-- `processRecipeUrls` of the library logic. -/
def processRecipeUrls (r : Recipe) : Recipe :=
  { r with
    url_de := procUrlField r.url_de
    url_en := procUrlField r.url_en
    imageUrl := procImgField r.imageUrl }

/-- A cookbook value: `processRecipesUrls` distinguishes arrays, plain
objects, and anything else (returned untouched). -/
inductive Cookbook where
  | arrC (xs : List Recipe)
  | objC (ps : List (Str × Recipe))
  | otherC
  deriving DecidableEq

/-- `processRecipesUrls` of the library logic. -/
def processRecipesUrls : Cookbook → Cookbook
  | .arrC xs => .arrC (xs.map processRecipeUrls)
  | .objC ps => .objC (ps.map (fun p => (p.1, processRecipeUrls p.2)))
  | .otherC => .otherC

/-- The library dataset: cookbook name to cookbook, in key insertion order. -/
abbrev LibraryData := List (Str × Cookbook)

/-- A dictionary record: the four translation fields are always populated
(documented invariant of the upstream data). -/
structure DictDetails where
  meaning_de : Str
  meaning_en : Str
  trans_de : Str
  trans_en : Str
  deriving DecidableEq

/-- One dictionary category: Thai term to record, in insertion order. -/
abbrev DictCategory := List (Str × DictDetails)

/-- The dictionary dataset: category name to category, in insertion order. -/
abbrev DictData := List (Str × DictCategory)

/-- Own-property lookup on a JS object modelled as an association list.
Keys such as `toString` inherited from `Object.prototype` are outside the
documented data model (Thai terms, category names) and are not modelled. -/
def alookup (k : Str) : List (Str × β) → Option β
  | [] => none
  | p :: rest => if p.1 == k then some p.2 else alookup k rest

/-- A search / translate result record `{category, thai, ...details}`. -/
structure DictHit where
  category : Str
  thai : Str
  details : DictDetails
  deriving DecidableEq

/-- The five-field match of `searchInCategory`: the Thai key is compared
as stored (not lowercased) against the lowercased term, the four
translation fields are lowercased before the comparison. -/
def matchFive (lq : Str) (thai : Str) (d : DictDetails) : Bool :=
  containsSub thai lq ||
  containsSub (lowerStr d.meaning_de) lq ||
  containsSub (lowerStr d.meaning_en) lq ||
  containsSub (lowerStr d.trans_de) lq ||
  containsSub (lowerStr d.trans_en) lq

/-- `searchInCategory` of `dictionary-logic.js`: an absent category yields
`[]`; otherwise the entries are scanned in order and matching ones are
returned extended with the category name. -/
def searchInCategory (data : DictData) (category : Str) (searchTerm : Str) : List DictHit :=
  match alookup category data with
  | none => []
  | some m =>
      m.filterMap (fun p =>
        if matchFive (lowerStr searchTerm) p.1 p.2 then some ⟨category, p.1, p.2⟩ else none)

/-- The claim's reading of the dictionary search, written from the spec
sentence: all five fields, including the Thai key, are compared
case-insensitively.  Used to compare against `searchInCategory`. -/
def specSearchInCategoryCI (data : DictData) (category : Str) (searchTerm : Str) : List DictHit :=
  match alookup category data with
  | none => []
  | some m =>
      m.filterMap (fun p =>
        if containsSub (lowerStr p.1) (lowerStr searchTerm) ||
           containsSub (lowerStr p.2.meaning_de) (lowerStr searchTerm) ||
           containsSub (lowerStr p.2.meaning_en) (lowerStr searchTerm) ||
           containsSub (lowerStr p.2.trans_de) (lowerStr searchTerm) ||
           containsSub (lowerStr p.2.trans_en) (lowerStr searchTerm)
        then some ⟨category, p.1, p.2⟩ else none)

/-- `translateWord` of `dictionary-logic.js`: scan the categories in
original order; the first category containing the word as an exact key
wins; otherwise `null`. -/
def translateWord : DictData → Str → Option DictHit
  | [], _ => none
  | (c, m) :: rest, w =>
      match alookup w m with
      | some det => some ⟨c, w, det⟩
      | none => translateWord rest w

/-- The `trans=TH-DE` autotranslation marker (the regex
`/trans=TH-(DE|EN)/` holds exactly when one of the two literal markers
occurs as a substring). -/
def markerDE : Str := strL (r"trans=TH-DE")

/-- The `trans=TH-EN` autotranslation marker. -/
def markerEN : Str := strL (r"trans=TH-EN")

/-- `link.startsWith('http://') || link.startsWith('https://')`. -/
def isAbsB (l : Str) : Bool :=
  startsWithStr (strL (r"http://")) l || startsWithStr (strL (r"https://")) l

/-- `/trans=TH-(DE|EN)/.test(link)`. -/
def hasMarkerB (l : Str) : Bool :=
  containsSub l markerDE || containsSub l markerEN

/-- JS `subject.replace(pat, rep)` for a literal string pattern: replace
the first occurrence, scanning left to right; no occurrence leaves the
subject unchanged. -/
def replaceFirst (pat rep : Str) : Str → Str
  | [] => []
  | c :: t =>
      if pat.isPrefixOf (c :: t) then rep ++ (c :: t).drop pat.length
      else c :: replaceFirst pat rep t

/-- JS `subject.replace(new RegExp('\\?' + param + '(&|$)'), '?')`: the
first position where `?param` occurs followed by `&` or the end of the
string is replaced (including the consumed `&`) by `?`; a position where
`?param` occurs but the follow-up fails is skipped and the scan goes on. -/
def replaceQParam (param : Str) : Str → Str
  | [] => []
  | c :: t =>
      if ('?' :: param).isPrefixOf (c :: t) then
        match (c :: t).drop (param.length + 1) with
        | '&' :: tl => '?' :: tl
        | [] => ['?']
        | _ => c :: replaceQParam param t
      else c :: replaceQParam param t

/-- JS `s.replace(/\?$/, '')`: strip a single trailing question mark. -/
def stripQEnd (s : Str) : Str :=
  match s.getLast? with
  | some c => if c = '?' then s.dropLast else s
  | none => s

/-- Hexadecimal digits used by `encodeURIComponent` percent escapes. -/
def hexChars : Str := strL (r"0123456789ABCDEF")

/-- UTF-8 bytes of a character, for percent-encoding. -/
def utf8Bytes (c : Char) : List Nat :=
  let n := c.toNat
  if n < 128 then [n]
  else if n < 2048 then [192 + n / 64, 128 + n % 64]
  else if n < 65536 then [224 + n / 4096, 128 + (n / 64) % 64, 128 + n % 64]
  else [240 + n / 262144, 128 + (n / 4096) % 64, 128 + (n / 64) % 64, 128 + n % 64]

/-- A percent escape `%HH` for one byte. -/
def pctByte (b : Nat) : Str :=
  ['%', hexChars.getD (b / 16) '0', hexChars.getD (b % 16) '0']

/-- The characters `encodeURIComponent` leaves unescaped:
letters, digits, and `- _ . ! ~ * ' ( )` (the apostrophe is written via
its code point). -/
def isUnreservedChar (c : Char) : Bool :=
  c.isAlpha || c.isDigit || (strL (r"-_.!~*()")).contains c || c = Char.ofNat 39

/-- JS `encodeURIComponent`. -/
def encodeURIComponent (s : Str) : Str :=
  (s.map (fun c => if isUnreservedChar c then [c] else (utf8Bytes c).map pctByte |>.flatten)).flatten

/-- The Google-Translate proxy wrapper around a cleaned URL. -/
def googleWrap (lang : Str) (clean : Str) : Str :=
  strL (r"https://translate.google.com/translate?sl=th&tl=") ++ lang ++
  strL (r"&js=y&prev=_t&hl=") ++ lang ++ strL (r"&ie=UTF-8&u=") ++
  encodeURIComponent clean

/-- The marker-removal sequence of the translate branch: drop the first
`?param(&|$)` occurrence, then the first `&param` occurrence, then a
trailing `?`. -/
def cleanTrans (param : Str) (l : Str) : Str :=
  stripQEnd (replaceFirst ('&' :: param) [] (replaceQParam param l))

/-- `BASE_URL` of the encyclopedia logic. -/
def baseUrl : Str := strL (r"https://www.ahaan-thai.de")

/-- `IMAGE_BASE_URL` of the encyclopedia logic. -/
def imageBaseUrl : Str := strL (r"https://bilder.koch-reis.de/media/")

/-- `transformRecipeLink` of the encyclopedia logic: translate-marker
rewrite, absolute passthrough, `/reiskoch/`, `/aa-pdf/`, `/youtube/`
rewrites, and the site-base fallback, in that order. -/
def transformRecipeLink (link : Str) : Str :=
  if isAbsB link && hasMarkerB link then
    if containsSub link markerDE then googleWrap (strL (r"de")) (cleanTrans markerDE link)
    else googleWrap (strL (r"en")) (cleanTrans markerEN link)
  else if isAbsB link then link
  else if startsWithStr (strL (r"/reiskoch/")) link then
    replaceFirst (strL (r"/reiskoch/")) (strL (r"https://www.der-reiskoch.de/")) link
  else if startsWithStr (strL (r"/aa-pdf/")) link then
    baseUrl ++ replaceFirst (strL (r"/aa-pdf/")) (strL (r"/pdf/andreas-ayasse/")) link
  else if startsWithStr (strL (r"/youtube/")) link then
    strL (r"https://www.youtube.com/watch?v=") ++ replaceFirst (strL (r"/youtube/")) [] link
  else baseUrl ++ link

/-- `ensureTrailingSlash` of the encyclopedia logic. -/
def ensureTrailingSlash (url : Str) : Str :=
  if containsSub url (strL (r"#")) || containsSub url (strL (r"?")) then url
  else if url.getLast? = some '/' then url else url ++ strL (r"/")

/-- One link application of `transformUrl`: classification rewrite,
optionally followed by the trailing-slash rule. -/
def applyLink (addSlash : Bool) (u : Str) : Str :=
  if addSlash then ensureTrailingSlash (transformRecipeLink u) else transformRecipeLink u

/-- A URL field value in an encyclopedia entry: a single string or an
array of strings (`transformUrl` handles both). -/
inductive StrOrList where
  | one (v : Str)
  | many (vs : List Str)
  deriving DecidableEq

/-- JS truthiness of a URL field value: the empty string is falsy, arrays
are always truthy. -/
def truthySL : StrOrList → Bool
  | .one v => !v.isEmpty
  | .many _ => true

/-- `transformUrl` of the encyclopedia logic. -/
def transformUrlSL (addSlash : Bool) : StrOrList → StrOrList
  | .one v => .one (applyLink addSlash v)
  | .many vs => .many (vs.map (applyLink addSlash))

/-- Field-level handling in `processEntry`: the guard
`if (processed.de[field])` skips absent and falsy (empty-string) values. -/
def transformField (addSlash : Bool) : Option StrOrList → Option StrOrList
  | none => none
  | some v => if truthySL v then some (transformUrlSL addSlash v) else some v

/-- The per-language sub-object of an encyclopedia entry. -/
structure LangData where
  transcription : Option Str
  summary : Option Str
  description : Option Str
  tags : Option (List Str)
  regions : Option (List Str)
  recipes : Option StrOrList
  url : Option StrOrList
  usedBy : Option StrOrList
  uses : Option StrOrList
  fits : Option StrOrList
  fittedBy : Option StrOrList
  variations : Option StrOrList
  variationOf : Option StrOrList
  deriving DecidableEq

/-- The per-language field loop of `processEntry`, unrolled over the one
recipe field (no trailing slash) and the seven relationship fields
(trailing slash enforced). -/
def transformLang (lg : LangData) : LangData :=
  { lg with
    recipes := transformField false lg.recipes
    url := transformField true lg.url
    usedBy := transformField true lg.usedBy
    uses := transformField true lg.uses
    fits := transformField true lg.fits
    fittedBy := transformField true lg.fittedBy
    variations := transformField true lg.variations
    variationOf := transformField true lg.variationOf }

/-- An encyclopedia entry. -/
structure Entry where
  thaiName : Option Str
  alternativeNames : Option (List Str)
  imageUrl : Option Str
  de : Option LangData
  en : Option LangData
  deriving DecidableEq

/-- `processEntry` of the encyclopedia logic. -/
def processEntry (e : Entry) : Entry :=
  { e with
    de := e.de.map transformLang
    en := e.en.map transformLang
    imageUrl :=
      match e.imageUrl with
      | some v =>
          if !v.isEmpty && !startsWithStr (strL (r"http")) v then some (imageBaseUrl ++ v)
          else some v
      | none => none }

/-- The seven relationship fields of an entry's language sub-object. -/
inductive RelField where
  | urlF | usedByF | usesF | fitsF | fittedByF | variationsF | variationOfF
  deriving DecidableEq

/-- Field accessor matching the `relationshipFields` list of the source. -/
def relGet : RelField → LangData → Option StrOrList
  | .urlF, lg => lg.url
  | .usedByF, lg => lg.usedBy
  | .usesF, lg => lg.uses
  | .fitsF, lg => lg.fits
  | .fittedByF, lg => lg.fittedBy
  | .variationsF, lg => lg.variations
  | .variationOfF, lg => lg.variationOf

/-- Match of one optional text field in `searchEntries` (the truthiness
guard makes an empty string never match). -/
def optTextMatch (lq : Str) : Option Str → Bool
  | some s => !s.isEmpty && containsSub (lowerStr s) lq
  | none => false

/-- Match of one optional string-list field in `searchEntries`. -/
def optListMatch (lq : Str) : Option (List Str) → Bool
  | some xs => xs.any (fun x => containsSub (lowerStr x) lq)
  | none => false

/-- Per-language conditions of the `searchEntries` match array. -/
def langMatches (lq : Str) (lg : LangData) : Bool :=
  optTextMatch lq lg.transcription || optTextMatch lq lg.summary ||
  optTextMatch lq lg.description || optListMatch lq lg.tags ||
  optListMatch lq lg.regions

/-- The full `searchEntries` match predicate over one entry. -/
def entryMatches (lq : Str) (e : Entry) : Bool :=
  optTextMatch lq e.thaiName ||
  optListMatch lq e.alternativeNames ||
  (match e.de with | some lg => langMatches lq lg | none => false) ||
  (match e.en with | some lg => langMatches lq lg | none => false)

/-- The push-and-break loop of `searchEntries`: push each match and stop
as soon as the result length reaches the limit. -/
def searchEntriesAux (lq : Str) (limit : Nat) : List Entry → List Entry → List Entry
  | [], acc => acc
  | e :: rest, acc =>
      if entryMatches lq e then
        if limit ≤ acc.length + 1 then acc ++ [e]
        else searchEntriesAux lq limit rest (acc ++ [e])
      else searchEntriesAux lq limit rest acc

/-- `searchEntries` with an explicit limit. -/
def searchEntriesL (data : List Entry) (searchTerm : Str) (limit : Nat) : List Entry :=
  searchEntriesAux (lowerStr searchTerm) limit data []

/-- `searchEntries` with the default limit 20. -/
def searchEntries (data : List Entry) (searchTerm : Str) : List Entry :=
  searchEntriesL data searchTerm 20

/-- Region match of one optional language sub-object in
`getEntriesByRegion`. -/
def langRegionsMatch (rl : Str) : Option LangData → Bool
  | some lg => optListMatch rl lg.regions
  | none => false

/-- `getEntriesByRegion` with an explicit limit: filter then `slice`. -/
def getEntriesByRegionL (data : List Entry) (region : Str) (limit : Nat) : List Entry :=
  (data.filter (fun e =>
    langRegionsMatch (lowerStr region) e.de || langRegionsMatch (lowerStr region) e.en)).take limit

/-- `getEntriesByRegion` with the default limit 20. -/
def getEntriesByRegion (data : List Entry) (region : Str) : List Entry :=
  getEntriesByRegionL data region 20

/-- Tag match of one optional language sub-object in `getEntriesByTag`. -/
def langTagsMatch (tl : Str) : Option LangData → Bool
  | some lg => optListMatch tl lg.tags
  | none => false

/-- `getEntriesByTag` with an explicit limit. -/
def getEntriesByTagL (data : List Entry) (tag : Str) (limit : Nat) : List Entry :=
  (data.filter (fun e =>
    langTagsMatch (lowerStr tag) e.de || langTagsMatch (lowerStr tag) e.en)).take limit

/-- `getEntriesByTag` with the default limit 20. -/
def getEntriesByTag (data : List Entry) (tag : Str) : List Entry :=
  getEntriesByTagL data tag 20

/-- `getAllEntries` with an explicit limit: `data.slice(0, limit)`. -/
def getAllEntriesL (data : List Entry) (limit : Nat) : List Entry :=
  data.take limit

/-- `getAllEntries` with the default limit 100. -/
def getAllEntries (data : List Entry) : List Entry :=
  data.take 100

/-- An HTTP response as the fetchers observe it: status, status text, the
content-type header (read by no fetcher — `response.json()` parses the body
irrespective of it), and the parsed JSON body, where `none` models a body
that fails to parse as JSON. -/
structure HttpResponse (β : Type) where
  status : Nat
  statusText : Str
  contentType : Str
  body : Option β
  deriving DecidableEq

/-- `response.ok`: a status in the 200-299 range. -/
def respOk (r : HttpResponse β) : Bool := 200 ≤ r.status && r.status ≤ 299

/-- Outcome of the transport call itself: `error` models a rejected
`fetch(url)` promise (network/DNS failure). -/
abbrev Transport (β : Type) := Except Str (HttpResponse β)

/-- The error kinds a fetcher can raise: transport rejection, the
`HTTP status` error thrown on `!response.ok`, the JSON parse rejection of
`response.json()`, and the shape errors (the explicit library check, or the
`TypeError` of `.map` on a non-array). -/
inductive FetchErr where
  | transport (msg : Str)
  | httpStatus (status : Nat) (text : Str)
  | jsonParse
  | badShape
  deriving DecidableEq

/-- Whether an `Except` outcome is an error. -/
def exceptIsErr : Except ε γ → Bool
  | .error _ => true
  | .ok _ => false

/-- Top-level shape of a parsed books body: an array of (well-typed) book
records, or any other JSON value — on which `rawBooks.map` throws. -/
inductive BooksBody where
  | booksArr (xs : List Book)
  | notArray
  deriving DecidableEq

/-- Top-level shape of a parsed encyclopedia body. -/
inductive EncBody where
  | entriesArr (xs : List Entry)
  | notArray
  deriving DecidableEq

/-- Top-level shape of a parsed library body: an object (or array — both
pass `typeof responseJson === 'object'` with truthiness), or any other
JSON value, which the explicit check rejects. -/
inductive LibBody where
  | libObj (lib : LibraryData)
  | notObject
  deriving DecidableEq

/-- `fetchDictionary` on a cache miss: propagate a transport rejection,
throw on a non-ok status, propagate a JSON parse rejection, and otherwise
return the parsed value unchanged (no shape validation). -/
def fetchDictionaryMiss (tr : Transport DictData) : Except FetchErr DictData :=
  match tr with
  | .error e => .error (.transport e)
  | .ok r =>
      if !respOk r then .error (.httpStatus r.status r.statusText)
      else match r.body with
        | none => .error .jsonParse
        | some d => .ok d

/-- `fetchBooks` on a cache miss: as the dictionary fetcher, then
`rawBooks.map(processBookData)` — which throws when the parsed value is
not an array. -/
def fetchBooksMiss (tr : Transport BooksBody) : Except FetchErr (List Book) :=
  match tr with
  | .error e => .error (.transport e)
  | .ok r =>
      if !respOk r then .error (.httpStatus r.status r.statusText)
      else match r.body with
        | none => .error .jsonParse
        | some (.booksArr xs) => .ok (xs.map processBookData)
        | some .notArray => .error .badShape

/-- `fetchEncyclopedia` on a cache miss: `rawData.map(processEntry)`
throws when the parsed value is not an array. -/
def fetchEncyclopediaMiss (tr : Transport EncBody) : Except FetchErr (List Entry) :=
  match tr with
  | .error e => .error (.transport e)
  | .ok r =>
      if !respOk r then .error (.httpStatus r.status r.statusText)
      else match r.body with
        | none => .error .jsonParse
        | some (.entriesArr xs) => .ok (xs.map processEntry)
        | some .notArray => .error .badShape

/-- `fetchLibrary` on a cache miss: the explicit
`if (!responseJson || typeof responseJson !== 'object')` check throws on
any non-object parsed value, then every cookbook is processed. -/
def fetchLibraryMiss (tr : Transport LibBody) : Except FetchErr LibraryData :=
  match tr with
  | .error e => .error (.transport e)
  | .ok r =>
      if !respOk r then .error (.httpStatus r.status r.statusText)
      else match r.body with
        | none => .error .jsonParse
        | some (.libObj lib) => .ok (lib.map (fun p => (p.1, processRecipesUrls p.2)))
        | some .notObject => .error .badShape

/-- The counter bump `m[k] = (m[k] || 0) + 1` on a JS object modelled as
an association list: an existing key keeps its position, a new key is
appended. -/
def bumpCount [BEq κ] (m : List (κ × Nat)) (k : κ) : List (κ × Nat) :=
  match m with
  | [] => [(k, 1)]
  | p :: t => if p.1 == k then (p.1, p.2 + 1) :: t else p :: bumpCount t k

/-- Stable insertion for the descending-count sort: an element is placed
before the first entry whose count is not larger, so equal counts keep
their enumeration order — matching the stable JS `sort((a,b) => b - a)`. -/
def insCountDesc (x : κ × Nat) : List (κ × Nat) → List (κ × Nat)
  | [] => [x]
  | y :: t => if y.2 ≤ x.2 then x :: y :: t else y :: insCountDesc x t

/-- The descending-count sort applied to each statistics dimension. -/
def sortCountDesc (l : List (κ × Nat)) : List (κ × Nat) :=
  l.foldr insCountDesc []

/-- Insertion for ascending integer keys (used to model that
`Object.entries` enumerates integer-like keys — years, levels — in
ascending numeric order before the count sort runs). -/
def insKeyAscInt (x : Int × Nat) : List (Int × Nat) → List (Int × Nat)
  | [] => [x]
  | y :: t => if x.1 < y.1 then x :: y :: t else y :: insKeyAscInt x t

/-- Ascending enumeration of an integer-keyed counter object. -/
def sortKeyAscInt (l : List (Int × Nat)) : List (Int × Nat) :=
  l.foldr insKeyAscInt []

/-- The result object of `getBookStatistics`. -/
structure BookStats where
  total_books : Nat
  languages : List (Str × Nat)
  levels : List (Int × Nat)
  authors : List (Str × Nat)
  publishers : List (Str × Nat)
  years : List (Int × Nat)
  locations : List (Str × Nat)
  deriving DecidableEq

/-- Bump a string-keyed counter when the field is truthy (present and
non-empty). -/
def bumpIfTruthyStr (m : List (Str × Nat)) : Option Str → List (Str × Nat)
  | some s => if s.isEmpty then m else bumpCount m s
  | none => m

/-- Bump an integer-keyed counter when the field is truthy (present and
non-zero). -/
def bumpIfTruthyInt (m : List (Int × Nat)) : Option Int → List (Int × Nat)
  | some n => if n == 0 then m else bumpCount m n
  | none => m

/-- The counting pass of `getBookStatistics`, before the sort. -/
def bookStatsRaw (books : List Book) : BookStats :=
  books.foldl (fun st b =>
    { st with
      languages := bumpIfTruthyStr st.languages b.lang
      levels := bumpIfTruthyInt st.levels b.level
      authors := bumpIfTruthyStr st.authors b.author
      publishers := bumpIfTruthyStr st.publishers b.publisher
      years := bumpIfTruthyInt st.years b.year
      locations := bumpIfTruthyStr st.locations b.location })
    ⟨books.length, [], [], [], [], [], []⟩

/-- `getBookStatistics`: count, then sort every dimension by descending
count (integer-keyed dimensions are enumerated in ascending key order
before the stable sort, as `Object.entries` does). -/
def getBookStatistics (books : List Book) : BookStats :=
  let raw := bookStatsRaw books
  { raw with
    languages := sortCountDesc raw.languages
    levels := sortCountDesc (sortKeyAscInt raw.levels)
    authors := sortCountDesc raw.authors
    publishers := sortCountDesc raw.publishers
    years := sortCountDesc (sortKeyAscInt raw.years)
    locations := sortCountDesc raw.locations }

/-- The result object of `getCookbookStats`. -/
structure CookbookStats where
  total_cookbooks : Nat
  total_recipes : Nat
  recipes_by_cookbook : List (Str × Nat)
  recipes_by_region : List (Str × Nat)
  regions : List Str
  cookbooks : List Str
  deriving DecidableEq

/-- `Object.values` of a cookbook (empty for non-collection values, which
lie outside the documented data model). -/
def cookbookValues : Cookbook → List Recipe
  | .arrC xs => xs
  | .objC ps => ps.map (fun p => p.2)
  | .otherC => []

/-- `Object.keys(cookbookData).length` of a cookbook. -/
def cookbookKeyCount : Cookbook → Nat
  | .arrC xs => xs.length
  | .objC ps => ps.length
  | .otherC => 0

/-- `getCookbookStats`: per-cookbook recipe counts in library order, a
region counter bumped in recipe order, and the region set in first-seen
order.  Note that, unlike `getBookStatistics`, no breakdown is sorted. -/
def getCookbookStats (lib : LibraryData) : CookbookStats :=
  let allR := (lib.map (fun p => cookbookValues p.2)).flatten
  { total_cookbooks := lib.length
    total_recipes := (lib.map (fun p => cookbookKeyCount p.2)).sum
    recipes_by_cookbook := lib.map (fun p => (p.1, cookbookKeyCount p.2))
    recipes_by_region := allR.foldl (fun acc r =>
      match r.region with
      | some s => if s.isEmpty then acc else bumpCount acc s
      | none => acc) []
    regions := allR.foldl (fun acc r =>
      match r.region with
      | some s => if s.isEmpty then acc else if acc.contains s then acc else acc ++ [s]
      | none => acc) []
    cookbooks := lib.map (fun p => p.1) }

/-- Strip one leading `/` from a value (used to state the join-point form
of the rewritten library URLs). -/
def stripLeadSlash (v : Str) : Str :=
  if startsWithStr (strL (r"/")) v then v.drop 1 else v

/-- The amended reading of the dictionary search: the query is lowercased
once; the Thai key is compared as stored against it, the four translation
fields are lowercased before the comparison. -/
def specSearchAmended (data : DictData) (category : Str) (searchTerm : Str) : List DictHit :=
  match alookup category data with
  | none => []
  | some m =>
      (m.filter (fun p =>
        containsSub p.1 (lowerStr searchTerm) ||
        containsSub (lowerStr p.2.meaning_de) (lowerStr searchTerm) ||
        containsSub (lowerStr p.2.meaning_en) (lowerStr searchTerm) ||
        containsSub (lowerStr p.2.trans_de) (lowerStr searchTerm) ||
        containsSub (lowerStr p.2.trans_en) (lowerStr searchTerm))).map
        (fun p => ⟨category, p.1, p.2⟩)

/-- Failure condition of the dictionary fetcher, as amended: transport
rejection, non-success status, or JSON parse failure (the content type is
never examined). -/
def specFetchFailDict (tr : Transport DictData) : Bool :=
  match tr with
  | .error _ => true
  | .ok r => !respOk r || r.body.isNone

/-- Failure condition of the books fetcher, as amended: additionally a
parsed body whose top-level value is not an array. -/
def specFetchFailBooks (tr : Transport BooksBody) : Bool :=
  match tr with
  | .error _ => true
  | .ok r => !respOk r ||
      (match r.body with
       | none => true
       | some .notArray => true
       | some (.booksArr _) => false)

/-- Failure condition of the encyclopedia fetcher, as amended. -/
def specFetchFailEnc (tr : Transport EncBody) : Bool :=
  match tr with
  | .error _ => true
  | .ok r => !respOk r ||
      (match r.body with
       | none => true
       | some .notArray => true
       | some (.entriesArr _) => false)

/-- Failure condition of the library fetcher, as amended: additionally a
parsed body whose top-level value is not an object. -/
def specFetchFailLib (tr : Transport LibBody) : Bool :=
  match tr with
  | .error _ => true
  | .ok r => !respOk r ||
      (match r.body with
       | none => true
       | some .notObject => true
       | some (.libObj _) => false)

/-- Whether a single link value is free of autotranslation markers. -/
def strMarkerFree (u : Str) : Bool := !hasMarkerB u

/-- Whether a URL field value is free of autotranslation markers. -/
def fieldMarkerFree : Option StrOrList → Bool
  | none => true
  | some (.one v) => strMarkerFree v
  | some (.many vs) => vs.all strMarkerFree

/-- Whether all nine URL fields of a language sub-object are marker-free. -/
def langMarkerFree (lg : LangData) : Bool :=
  fieldMarkerFree lg.recipes && fieldMarkerFree lg.url && fieldMarkerFree lg.usedBy &&
  fieldMarkerFree lg.uses && fieldMarkerFree lg.fits && fieldMarkerFree lg.fittedBy &&
  fieldMarkerFree lg.variations && fieldMarkerFree lg.variationOf

/-- Whether all link values of an entry are marker-free. -/
def entryMarkerFree (e : Entry) : Bool :=
  (match e.de with | some lg => langMarkerFree lg | none => true) &&
  (match e.en with | some lg => langMarkerFree lg | none => true)

theorem containsSub_iff (s pat : Str) : containsSub s pat = true ↔ pat <:+: s := by
  induction s with
  | nil => simp [containsSub, List.isEmpty_iff]
  | cons c t ih =>
      simp [containsSub, List.infix_cons_iff, List.isPrefixOf_iff_prefix, ih, Bool.or_eq_true]

theorem singletonInf (a : Char) (l : Str) : [a] <:+: l ↔ a ∈ l := by
  constructor
  · intro h
    exact List.singleton_sublist.mp h.sublist
  · intro h
    obtain ⟨s, t, rfl⟩ := List.append_of_mem h
    exact ⟨s, t, by simp⟩

theorem preSplit (pat a b : Str) (h : pat <+: a ++ b) :
    pat <+: a ∨ (a <+: pat ∧ pat.drop a.length <+: b) := by
  induction a generalizing pat with
  | nil => exact Or.inr ⟨List.nil_prefix, by simpa using h⟩
  | cons x a2 ih =>
      cases pat with
      | nil => exact Or.inl List.nil_prefix
      | cons y p2 =>
          rw [List.cons_append, List.cons_prefix_cons] at h
          obtain ⟨rfl, h2⟩ := h
          rcases ih p2 h2 with h3 | ⟨h3, h4⟩
          · exact Or.inl (List.cons_prefix_cons.mpr ⟨rfl, h3⟩)
          · exact Or.inr ⟨List.cons_prefix_cons.mpr ⟨rfl, h3⟩, by simpa using h4⟩

theorem infSplit (pat a b : Str) (h : pat <:+: a ++ b) :
    pat <:+: a ∨ pat <:+: b ∨
      ∃ k, 0 < k ∧ k < pat.length ∧ pat.take k <:+ a ∧ pat.drop k <+: b := by
  induction a with
  | nil => exact Or.inr (Or.inl (by simpa using h))
  | cons x a2 ih =>
      rw [List.cons_append, List.infix_cons_iff] at h
      rcases h with h | h
      · rcases preSplit pat (x :: a2) b h with h2 | ⟨h2, h3⟩
        · exact Or.inl h2.isInfix
        · by_cases hlen : pat.length ≤ (x :: a2).length
          · left
            rw [h2.eq_of_length_le hlen]
          · right; right
            refine ⟨(x :: a2).length, by simp, by omega, ?_, h3⟩
            rw [(List.prefix_iff_eq_take.mp h2).symm]
      · rcases ih h with h2 | h2 | ⟨k, hk1, hk2, hk3, hk4⟩
        · exact Or.inl (h2.trans (List.suffix_cons x a2).isInfix)
        · exact Or.inr (Or.inl h2)
        · exact Or.inr (Or.inr ⟨k, hk1, hk2, hk3.trans (List.suffix_cons x a2), hk4⟩)

theorem noInfAppend (pat a b : Str) (ha : ¬ pat <:+: a) (hb : ¬ pat <:+: b)
    (hspan : ∀ k, k < pat.length → 0 < k → ¬ (pat.take k <:+ a ∧ pat.drop k <+: b)) :
    ¬ pat <:+: a ++ b := by
  intro h
  rcases infSplit pat a b h with h1 | h1 | ⟨k, hk1, hk2, hk3, hk4⟩
  exacts [ha h1, hb h1, hspan k hk2 hk1 ⟨hk3, hk4⟩]

theorem constInfSafeL (pat c t : Str) (hc : ¬ pat <:+: c)
    (hk : ∀ k, k < pat.length → 0 < k → ¬ pat.take k <:+ c)
    (ht : ¬ pat <:+: t) : ¬ pat <:+: c ++ t :=
  noInfAppend pat c t hc ht (fun k h1 h2 hand => hk k h1 h2 hand.1)

theorem constInfSafeR (pat t c : Str) (hc : ¬ pat <:+: c)
    (hk : ∀ k, k < pat.length → 0 < k → ¬ pat.drop k <+: c)
    (ht : ¬ pat <:+: t) : ¬ pat <:+: t ++ c :=
  noInfAppend pat t c ht hc (fun k h1 h2 hand => hk k h1 h2 hand.2)

theorem jsLowerChar_idem (c : Char) : jsLowerChar (jsLowerChar c) = jsLowerChar c := by
  unfold jsLowerChar
  by_cases h : 65 ≤ c.toNat ∧ c.toNat ≤ 90
  · rw [if_pos h]
    obtain ⟨h1, h2⟩ := h
    generalize c.toNat = m at h1 h2
    interval_cases m <;> decide
  · rw [if_neg h, if_neg h]

theorem lowerStr_idem (s : Str) : lowerStr (lowerStr s) = lowerStr s := by
  unfold lowerStr
  rw [List.map_map]
  exact List.map_congr_left (fun c _ => jsLowerChar_idem c)

theorem filterMap_if_eq (m : List α) (f : α → Bool) (g : α → β) :
    m.filterMap (fun x => if f x then some (g x) else none) = (m.filter f).map g := by
  induction m with
  | nil => rfl
  | cons a t ih => by_cases h : f a <;> simp [List.filterMap_cons, List.filter_cons, h, ih]

/-- Claim C1 counterexample: the clock position 0 falsifies the claim as
stated.  `set(x)` at `Date.now() = 0` stores the timestamp 0, which is a
falsy number, so an immediate `get()` returns absent instead of `x`. -/
theorem claim_c1_counterexample :
    ¬ (cacheGet (cacheSet (mkCache Nat 300000) 7 0) 0 = some 7) := by decide

/-- Claim C1 (amended): for a cache with positive ttl, and a `set(x)`
performed at a truthy (non-zero) clock position `t`: `get()` at `t`
returns `x`; `get()` at any position at least `ttl` later returns absent
while the stored value is kept (`get` never writes the slot); and a later
`set(y)` at a truthy position makes an in-ttl `get()` return `y`. -/
theorem claim_c1_amended {α : Type} (c : JsCache α) (x y : α) (t t2 now now2 : Int)
    (httl : 0 < c.ttl) (ht : t ≠ 0) :
    cacheGet (cacheSet c x t) t = some x ∧
    (c.ttl ≤ now - t → cacheGet (cacheSet c x t) now = none ∧ (cacheSet c x t).data = some x) ∧
    (t2 ≠ 0 → now2 - t2 < c.ttl → cacheGet (cacheSet (cacheSet c x t) y t2) now2 = some y) := by
  refine ⟨?_, fun hnow => ⟨?_, rfl⟩, fun ht2 hnow2 => ?_⟩
  · simp only [cacheGet, cacheSet]
    rw [if_pos ⟨ht, by omega⟩]
  · simp only [cacheGet, cacheSet]
    rw [if_neg]
    intro hcon
    omega
  · simp only [cacheGet, cacheSet]
    rw [if_pos ⟨ht2, hnow2⟩]

/-- Witness for claim C1 at concrete inputs. -/
theorem claim_c1_witness :
    cacheGet (cacheSet (mkCache Nat 300000) 1 5) 5 = some 1 ∧
    cacheGet (cacheSet (mkCache Nat 300000) 1 5) 300005 = none ∧
    cacheGet (cacheSet (cacheSet (mkCache Nat 300000) 1 5) 2 400000) 400001 = some 2 := by
  have h := claim_c1_amended (mkCache Nat 300000) 1 2 5 400000 300005 400001 (by decide) (by decide)
  exact ⟨h.1, (h.2.1 (by decide)).1, h.2.2 (by decide) (by decide)⟩

/-- Claim C4: a book with `shop = "amazon"` and a target that is non-empty
after trimming gets `url = affiliate base ++ target` and loses its
`target`; every other book record passes through unchanged. -/
theorem claim_c4 :
    (∀ (b : Book) (t : Str), b.shop = some (strL (r"amazon")) → b.target = some t →
      trimStr t ≠ [] →
      processBookData b = { b with url := some (amazonUrlPre ++ t), target := none }) ∧
    (∀ b : Book,
      ¬ (b.shop = some (strL (r"amazon")) ∧ ∃ t, b.target = some t ∧ trimStr t ≠ []) →
      processBookData b = b) := by
  constructor
  · intro b t hshop htarget htrim
    have htne : t ≠ [] := by
      intro he
      exact htrim (by simp [he, trimStr])
    simp [processBookData, htarget, hshop, List.isEmpty_iff, htne, htrim]
  · intro b hn
    cases hb : b.target with
    | none => simp [processBookData, hb]
    | some t =>
        have hcond :
            (b.shop == some (strL (r"amazon")) && !t.isEmpty && !(trimStr t).isEmpty) = false := by
          rw [Bool.eq_false_iff]
          intro hc
          rw [Bool.and_eq_true, Bool.and_eq_true] at hc
          obtain ⟨⟨h1, _⟩, h3⟩ := hc
          refine hn ⟨by simpa using h1, t, hb, ?_⟩
          simpa [List.isEmpty_iff] using h3
        simp [processBookData, hb, hcond]

/-- Witness for claim C4 at concrete books. -/
theorem claim_c4_witness :
    processBookData
        ⟨some (strL (r"amazon")), some (strL (r"abc123")), none, none, none, none, none,
          none, none, none, none, none, none, none⟩ =
      { (⟨some (strL (r"amazon")), some (strL (r"abc123")), none, none, none, none, none,
          none, none, none, none, none, none, none⟩ : Book) with
          url := some (amazonUrlPre ++ strL (r"abc123")), target := none } ∧
    processBookData
        ⟨some (strL (r"thalia")), some (strL (r"x")), none, none, none, none, none,
          none, none, none, none, none, none, none⟩ =
      ⟨some (strL (r"thalia")), some (strL (r"x")), none, none, none, none, none,
          none, none, none, none, none, none, none⟩ := by
  constructor
  · exact claim_c4.1 _ (strL (r"abc123")) rfl rfl (by decide)
  · refine claim_c4.2 _ ?_
    rintro ⟨h1, -⟩
    exact absurd h1 (by decide)

/-- Claim C7: `translateWord` returns the record of the first category (in
original order) containing the word as an exact key, extended with the
category name; when no category contains it, the result is absent. -/
theorem claim_c7 :
    (∀ (pre post : DictData) (c w : Str) (m : DictCategory) (det : DictDetails),
      (∀ p ∈ pre, alookup w p.2 = none) → alookup w m = some det →
      translateWord (pre ++ (c, m) :: post) w = some ⟨c, w, det⟩) ∧
    (∀ (d : DictData) (w : Str), (∀ p ∈ d, alookup w p.2 = none) →
      translateWord d w = none) := by
  constructor
  · intro pre post c w m det hpre hm
    induction pre with
    | nil => simp [translateWord, hm]
    | cons q qs ih =>
        obtain ⟨c1, m1⟩ := q
        have h1 : alookup w m1 = none := hpre (c1, m1) (List.mem_cons_self _ _)
        simpa [translateWord, h1] using ih (fun p hp => hpre p (List.mem_cons_of_mem _ hp))
  · intro d w h
    induction d with
    | nil => rfl
    | cons q qs ih =>
        obtain ⟨c1, m1⟩ := q
        have h1 : alookup w m1 = none := h (c1, m1) (List.mem_cons_self _ _)
        simpa [translateWord, h1] using ih (fun p hp => h p (List.mem_cons_of_mem _ hp))

/-- Witness for claim C7 on the spec's translate scenario (one category
`gemuese` containing one term). -/
theorem claim_c7_witness :
    translateWord
        [(strL (r"gemuese"),
          [(strL (r"makhuea"),
            ⟨strL (r"Aubergine"), strL (r"Eggplant"), strL (r"Makhuea"), strL (r"Makhuea")⟩)])]
        (strL (r"makhuea")) =
      some ⟨strL (r"gemuese"), strL (r"makhuea"),
        ⟨strL (r"Aubergine"), strL (r"Eggplant"), strL (r"Makhuea"), strL (r"Makhuea")⟩⟩ ∧
    translateWord
        [(strL (r"gemuese"),
          [(strL (r"makhuea"),
            ⟨strL (r"Aubergine"), strL (r"Eggplant"), strL (r"Makhuea"), strL (r"Makhuea")⟩)])]
        (strL (r"maimi")) = none := by
  constructor
  · exact claim_c7.1 [] [] (strL (r"gemuese")) (strL (r"makhuea")) _ _ (by simp) (by decide)
  · exact claim_c7.2 _ (strL (r"maimi")) (by decide)

theorem searchAux_eq (lq : Str) (limit : Nat) :
    ∀ (rest acc : List Entry), acc.length < limit →
    searchEntriesAux lq limit rest acc =
      acc ++ (rest.filter (entryMatches lq)).take (limit - acc.length) := by
  intro rest
  induction rest with
  | nil => intro acc _; simp [searchEntriesAux]
  | cons e t ih =>
      intro acc h
      by_cases hm : entryMatches lq e = true
      · simp only [searchEntriesAux, hm, if_true]
        by_cases hl : limit ≤ acc.length + 1
        · rw [if_pos hl]
          have h2 : limit - acc.length = 1 := by omega
          simp [List.filter_cons, hm, h2]
        · rw [if_neg hl]
          rw [ih (acc ++ [e]) (by simp; omega)]
          have h2 : limit - acc.length = (limit - (acc ++ [e]).length) + 1 := by
            simp
            omega
          simp [List.filter_cons, hm, h2]
      · simp only [searchEntriesAux, hm, if_false]
        rw [ih acc h]
        simp [List.filter_cons, hm]

/-- Claim C10: with the limit omitted, `searchEntries`,
`getEntriesByRegion` and `getEntriesByTag` return at most 20 entries and
`getAllEntries` at most 100; each returns exactly the first matches
(dataset order) up to that bound. -/
theorem claim_c10 (data : List Entry) (q region tag : Str) :
    searchEntries data q = (data.filter (entryMatches (lowerStr q))).take 20 ∧
    (searchEntries data q).length ≤ 20 ∧
    getEntriesByRegion data region =
      (data.filter (fun e => langRegionsMatch (lowerStr region) e.de ||
        langRegionsMatch (lowerStr region) e.en)).take 20 ∧
    (getEntriesByRegion data region).length ≤ 20 ∧
    getEntriesByTag data tag =
      (data.filter (fun e => langTagsMatch (lowerStr tag) e.de ||
        langTagsMatch (lowerStr tag) e.en)).take 20 ∧
    (getEntriesByTag data tag).length ≤ 20 ∧
    getAllEntries data = data.take 100 ∧
    (getAllEntries data).length ≤ 100 := by
  have h1 : searchEntries data q = (data.filter (entryMatches (lowerStr q))).take 20 := by
    unfold searchEntries searchEntriesL
    rw [searchAux_eq (lowerStr q) 20 data [] (by simp)]
    simp
  refine ⟨h1, ?_, rfl, ?_, rfl, ?_, rfl, ?_⟩
  · rw [h1]
    simp [List.length_take]
  · simp [getEntriesByRegion, getEntriesByRegionL, List.length_take]
  · simp [getEntriesByTag, getEntriesByTagL, List.length_take]
  · simp [getAllEntries, List.length_take]

/-- Claim C8 counterexample: the library statistics are not sorted by
descending count.  A library whose first-seen region has fewer recipes
than a later one yields `recipes_by_region` in first-encounter order
`[(b,1),(a,2)]`, which is not descending. -/
theorem claim_c8_counterexample :
    (getCookbookStats [(strL (r"bk"), Cookbook.objC
        [(strL (r"r1"), ⟨none, none, none, none, none, none, none, some (strL (r"b"))⟩),
         (strL (r"r2"), ⟨none, none, none, none, none, none, none, some (strL (r"a"))⟩),
         (strL (r"r3"), ⟨none, none, none, none, none, none, none, some (strL (r"a"))⟩)]
      )]).recipes_by_region = [(strL (r"b"), 1), (strL (r"a"), 2)] ∧
    ¬ List.Pairwise (fun a b => b.2 ≤ a.2)
        ((getCookbookStats [(strL (r"bk"), Cookbook.objC
          [(strL (r"r1"), ⟨none, none, none, none, none, none, none, some (strL (r"b"))⟩),
           (strL (r"r2"), ⟨none, none, none, none, none, none, none, some (strL (r"a"))⟩),
           (strL (r"r3"), ⟨none, none, none, none, none, none, none, some (strL (r"a"))⟩)]
        )]).recipes_by_region) := by
  exact ⟨by decide, by decide⟩

theorem mem_insCountDesc (x z : κ × Nat) (l : List (κ × Nat)) :
    z ∈ insCountDesc x l ↔ z = x ∨ z ∈ l := by
  induction l with
  | nil => simp [insCountDesc]
  | cons y t ih =>
      by_cases h : y.2 ≤ x.2
      · simp [insCountDesc, h]
      · simp [insCountDesc, h, ih]
        tauto

theorem pairwise_insCountDesc (x : κ × Nat) (l : List (κ × Nat))
    (h : List.Pairwise (fun a b => b.2 ≤ a.2) l) :
    List.Pairwise (fun a b => b.2 ≤ a.2) (insCountDesc x l) := by
  induction l with
  | nil => simp [insCountDesc]
  | cons y t ih =>
      rcases List.pairwise_cons.mp h with ⟨hy, ht⟩
      by_cases hc : y.2 ≤ x.2
      · rw [insCountDesc, if_pos hc]
        refine List.pairwise_cons.mpr ⟨?_, h⟩
        intro z hz
        rcases List.mem_cons.mp hz with rfl | hz
        · exact hc
        · exact le_trans (hy z hz) hc
      · rw [insCountDesc, if_neg hc]
        refine List.pairwise_cons.mpr ⟨?_, ih ht⟩
        intro z hz
        rcases (mem_insCountDesc x z t).mp hz with rfl | hz
        · omega
        · exact hy z hz

theorem pairwise_sortCountDesc (l : List (κ × Nat)) :
    List.Pairwise (fun a b => b.2 ≤ a.2) (sortCountDesc l) := by
  induction l with
  | nil => simp [sortCountDesc]
  | cons x t ih => exact pairwise_insCountDesc x _ ih

/-- Claim C8 (amended): the six book-statistics breakdowns are each sorted
by descending count; the library statistics (see the counterexample) are
produced in first-encounter order and are not sorted. -/
theorem claim_c8_amended (books : List Book) :
    List.Pairwise (fun a b => b.2 ≤ a.2) (getBookStatistics books).languages ∧
    List.Pairwise (fun a b => b.2 ≤ a.2) (getBookStatistics books).levels ∧
    List.Pairwise (fun a b => b.2 ≤ a.2) (getBookStatistics books).authors ∧
    List.Pairwise (fun a b => b.2 ≤ a.2) (getBookStatistics books).publishers ∧
    List.Pairwise (fun a b => b.2 ≤ a.2) (getBookStatistics books).years ∧
    List.Pairwise (fun a b => b.2 ≤ a.2) (getBookStatistics books).locations :=
  ⟨pairwise_sortCountDesc _, pairwise_sortCountDesc _, pairwise_sortCountDesc _,
   pairwise_sortCountDesc _, pairwise_sortCountDesc _, pairwise_sortCountDesc _⟩

/-- Claim C9 counterexample: a Thai key holding uppercase Latin letters is
compared without lowercasing, so the record is missed although the
case-insensitive reading of the claim requires it to match. -/
theorem claim_c9_counterexample :
    searchInCategory
        [(strL (r"cat"), [(strL (r"ABC"),
          ⟨strL (r"x"), strL (r"x"), strL (r"x"), strL (r"x")⟩)])]
        (strL (r"cat")) (strL (r"B")) ≠
      specSearchInCategoryCI
        [(strL (r"cat"), [(strL (r"ABC"),
          ⟨strL (r"x"), strL (r"x"), strL (r"x"), strL (r"x")⟩)])]
        (strL (r"cat")) (strL (r"B")) := by decide

/-- Claim C9 (amended): the query is lowercased once, so two queries
differing only in letter case give the same results; a record matches iff
the stored Thai key contains the lowercased query, or one of the four
lowercased translation fields contains it. -/
theorem claim_c9_amended (d : DictData) (c q : Str) :
    searchInCategory d c q = searchInCategory d c (lowerStr q) ∧
    searchInCategory d c q = specSearchAmended d c q := by
  constructor
  · unfold searchInCategory
    rw [lowerStr_idem]
  · unfold searchInCategory specSearchAmended
    cases alookup c d with
    | none => rfl
    | some m => exact filterMap_if_eq m _ _

theorem procRelUrl_eq (v : Str) : procRelUrl v = urlPreDeEn ++ '/' :: stripLeadSlash v := by
  unfold procRelUrl stripLeadSlash
  by_cases h : startsWithStr (strL (r"/")) v = true
  · rw [if_pos h, if_pos h]
    obtain ⟨w, rfl⟩ : ∃ w, v = '/' :: w := by
      cases v with
      | nil => simp [startsWithStr, strL, List.isPrefixOf] at h
      | cons a t =>
          have h2 := List.isPrefixOf_iff_prefix.mp h
          rw [show strL (r"/") = ['/'] from rfl, List.cons_prefix_cons] at h2
          exact ⟨t, by rw [← h2.1]⟩
    simp
  · rw [if_neg h, if_neg h]
    rfl

theorem stripLeadSlash_noSlash (v : Str) (h : startsWithStr (strL (r"//")) v = false) :
    startsWithStr (strL (r"/")) (stripLeadSlash v) = false := by
  unfold stripLeadSlash
  by_cases h1 : startsWithStr (strL (r"/")) v = true
  · rw [if_pos h1]
    obtain ⟨w, rfl⟩ : ∃ w, v = '/' :: w := by
      cases v with
      | nil => simp [startsWithStr, strL, List.isPrefixOf] at h1
      | cons a t =>
          have h2 := List.isPrefixOf_iff_prefix.mp h1
          rw [show strL (r"/") = ['/'] from rfl, List.cons_prefix_cons] at h2
          exact ⟨t, by rw [← h2.1]⟩
    simp only [List.drop_succ_cons, List.drop_zero]
    rw [Bool.eq_false_iff]
    intro hw
    rw [Bool.eq_false_iff] at h
    apply h
    have h3 := List.isPrefixOf_iff_prefix.mp hw
    apply List.isPrefixOf_iff_prefix.mpr
    rw [show strL (r"//") = '/' :: ['/'] from rfl, List.cons_prefix_cons]
    exact ⟨rfl, h3⟩
  · rw [if_neg h1]
    exact Bool.eq_false_iff.mpr h1

/-- Claim C5 (amended): a present, non-empty, relative (not `http`-led)
`url_de`/`url_en` is rewritten to the site base, a single `/`, and the
value with its leading slash (if any) folded into that separator; a
present, non-empty, relative `imageUrl` is rewritten to the image base
(which ends in `/`) plus the value with one leading `/` stripped.  When
the value does not start with `//`, the part after the join slash starts
with no further slash, so no double slash arises at the join.  Empty,
`http`-led, and absent values are left unchanged (the source's truthiness
guard skips the empty string, which the claim as stated would rewrite). -/
theorem claim_c5_amended :
    (∀ (rec : Recipe) (v : Str), rec.url_de = some v → v ≠ [] →
       startsWithStr (strL (r"http")) v = false →
       (processRecipeUrls rec).url_de = some (urlPreDeEn ++ '/' :: stripLeadSlash v)) ∧
    (∀ (rec : Recipe) (v : Str), rec.url_en = some v → v ≠ [] →
       startsWithStr (strL (r"http")) v = false →
       (processRecipeUrls rec).url_en = some (urlPreDeEn ++ '/' :: stripLeadSlash v)) ∧
    (∀ (rec : Recipe) (v : Str), rec.imageUrl = some v → v ≠ [] →
       startsWithStr (strL (r"http")) v = false →
       (processRecipeUrls rec).imageUrl = some (imgUrlBase ++ stripLeadSlash v)) ∧
    (∀ v : Str, startsWithStr (strL (r"//")) v = false →
       startsWithStr (strL (r"/")) (stripLeadSlash v) = false) ∧
    (∀ (rec : Recipe) (v : Str), v = [] ∨ startsWithStr (strL (r"http")) v = true →
       (rec.url_de = some v → (processRecipeUrls rec).url_de = some v) ∧
       (rec.url_en = some v → (processRecipeUrls rec).url_en = some v) ∧
       (rec.imageUrl = some v → (processRecipeUrls rec).imageUrl = some v)) ∧
    (∀ rec : Recipe,
       (rec.url_de = none → (processRecipeUrls rec).url_de = none) ∧
       (rec.url_en = none → (processRecipeUrls rec).url_en = none) ∧
       (rec.imageUrl = none → (processRecipeUrls rec).imageUrl = none)) := by
  have hu : ∀ (v : Str), v ≠ [] → startsWithStr (strL (r"http")) v = false →
      procUrlField (some v) = some (urlPreDeEn ++ '/' :: stripLeadSlash v) := by
    intro v h1 h2
    simp [procUrlField, List.isEmpty_iff, h1, h2, procRelUrl_eq]
  have hi : ∀ (v : Str), v ≠ [] → startsWithStr (strL (r"http")) v = false →
      procImgField (some v) = some (imgUrlBase ++ stripLeadSlash v) := by
    intro v h1 h2
    simp [procImgField, List.isEmpty_iff, h1, h2, procImgUrl, stripLeadSlash]
  have hskipU : ∀ (v : Str), v = [] ∨ startsWithStr (strL (r"http")) v = true →
      procUrlField (some v) = some v := by
    intro v h
    rcases h with rfl | h <;> simp [procUrlField, List.isEmpty_iff, *]
  have hskipI : ∀ (v : Str), v = [] ∨ startsWithStr (strL (r"http")) v = true →
      procImgField (some v) = some v := by
    intro v h
    rcases h with rfl | h <;> simp [procImgField, List.isEmpty_iff, *]
  refine ⟨?_, ?_, ?_, stripLeadSlash_noSlash, ?_, ?_⟩
  · intro rec v hr h1 h2
    show procUrlField rec.url_de = _
    rw [hr, hu v h1 h2]
  · intro rec v hr h1 h2
    show procUrlField rec.url_en = _
    rw [hr, hu v h1 h2]
  · intro rec v hr h1 h2
    show procImgField rec.imageUrl = _
    rw [hr, hi v h1 h2]
  · intro rec v h
    refine ⟨fun hr => ?_, fun hr => ?_, fun hr => ?_⟩
    · show procUrlField rec.url_de = _
      rw [hr, hskipU v h]
    · show procUrlField rec.url_en = _
      rw [hr, hskipU v h]
    · show procImgField rec.imageUrl = _
      rw [hr, hskipI v h]
  · intro rec
    refine ⟨fun hr => ?_, fun hr => ?_, fun hr => ?_⟩
    · show procUrlField rec.url_de = _
      rw [hr]
      rfl
    · show procUrlField rec.url_en = _
      rw [hr]
      rfl
    · show procImgField rec.imageUrl = _
      rw [hr]
      rfl

/-- Claim C5 counterexample: an empty `url_de` is present and not
`http`-led, yet is left unchanged (falsy guard), and an `imageUrl`
beginning with `//` keeps a double slash at the join point after one
leading slash is stripped. -/
theorem claim_c5_counterexample :
    (processRecipeUrls ⟨some [], none, some (strL (r"//x")),
        none, none, none, none, none⟩).url_de = some [] ∧
    (processRecipeUrls ⟨some [], none, some (strL (r"//x")),
        none, none, none, none, none⟩).imageUrl =
      some (strL (r"https://bilder.koch-reis.de//x")) ∧
    containsSub ((strL (r"https://bilder.koch-reis.de//x")).drop 8) (strL (r"//")) = true := by
  exact ⟨by decide, by decide, by decide⟩

/-- Witness for claim C5 on the spec's rewrite scenario
(`url_de = "/foo/bar"`, `imageUrl = "baz.jpg"`). -/
theorem claim_c5_witness :
    (processRecipeUrls ⟨some (strL (r"/foo/bar")), none, some (strL (r"baz.jpg")),
        none, none, none, none, none⟩).url_de =
      some (strL (r"https://www.ahaan-thai.de/foo/bar")) ∧
    (processRecipeUrls ⟨some (strL (r"/foo/bar")), none, some (strL (r"baz.jpg")),
        none, none, none, none, none⟩).imageUrl =
      some (strL (r"https://bilder.koch-reis.de/baz.jpg")) := by
  constructor
  · rw [claim_c5_amended.1 _ (strL (r"/foo/bar")) rfl (by decide) (by decide)]
    decide
  · rw [claim_c5_amended.2.2.1 _ (strL (r"baz.jpg")) rfl (by decide) (by decide)]
    decide

/-- Claim C2 counterexample: a 200 response whose content type is not JSON
but whose body parses succeeds — no fetcher examines the content-type
header (`response.json()` parses the body regardless of it), so the
claim's "error if the content-type is not JSON" direction fails. -/
theorem claim_c2_counterexample :
    exceptIsErr (fetchDictionaryMiss
      (Except.ok ⟨200, strL (r"OK"), strL (r"text/html"), some []⟩)) = false ∧
    strL (r"text/html") ≠ strL (r"application/json") := by
  refine ⟨by decide, by decide⟩

/-- Claim C2 (amended): on a cache miss each fetcher raises an error iff
the transport call fails, the status is not successful, or the body fails
to parse as JSON — plus, for books and the encyclopedia, a parsed value
that is not an array, and, for the library, a parsed value that is not an
object.  The content-type header never influences the outcome, and the
`Except` result carries either the error or the complete data (no partial
data). -/
theorem claim_c2_amended :
    (∀ tr : Transport DictData, exceptIsErr (fetchDictionaryMiss tr) = specFetchFailDict tr) ∧
    (∀ tr : Transport BooksBody, exceptIsErr (fetchBooksMiss tr) = specFetchFailBooks tr) ∧
    (∀ tr : Transport LibBody, exceptIsErr (fetchLibraryMiss tr) = specFetchFailLib tr) ∧
    (∀ tr : Transport EncBody, exceptIsErr (fetchEncyclopediaMiss tr) = specFetchFailEnc tr) ∧
    (∀ (rr : HttpResponse DictData) (ct : Str),
      fetchDictionaryMiss (Except.ok { rr with contentType := ct }) =
        fetchDictionaryMiss (Except.ok rr)) := by
  refine ⟨?_, ?_, ?_, ?_, ?_⟩
  · intro tr
    cases tr with
    | error e => rfl
    | ok r =>
        by_cases h : respOk r = true
        · cases hb : r.body <;> simp [fetchDictionaryMiss, specFetchFailDict, h, hb, exceptIsErr]
        · simp [fetchDictionaryMiss, specFetchFailDict, Bool.eq_false_iff.mpr h, exceptIsErr]
  · intro tr
    cases tr with
    | error e => rfl
    | ok r =>
        by_cases h : respOk r = true
        · cases hb : r.body with
          | none => simp [fetchBooksMiss, specFetchFailBooks, h, hb, exceptIsErr]
          | some bb =>
              cases bb <;> simp [fetchBooksMiss, specFetchFailBooks, h, hb, exceptIsErr]
        · simp [fetchBooksMiss, specFetchFailBooks, Bool.eq_false_iff.mpr h, exceptIsErr]
  · intro tr
    cases tr with
    | error e => rfl
    | ok r =>
        by_cases h : respOk r = true
        · cases hb : r.body with
          | none => simp [fetchLibraryMiss, specFetchFailLib, h, hb, exceptIsErr]
          | some bb =>
              cases bb <;> simp [fetchLibraryMiss, specFetchFailLib, h, hb, exceptIsErr]
        · simp [fetchLibraryMiss, specFetchFailLib, Bool.eq_false_iff.mpr h, exceptIsErr]
  · intro tr
    cases tr with
    | error e => rfl
    | ok r =>
        by_cases h : respOk r = true
        · cases hb : r.body with
          | none => simp [fetchEncyclopediaMiss, specFetchFailEnc, h, hb, exceptIsErr]
          | some bb =>
              cases bb <;> simp [fetchEncyclopediaMiss, specFetchFailEnc, h, hb, exceptIsErr]
        · simp [fetchEncyclopediaMiss, specFetchFailEnc, Bool.eq_false_iff.mpr h, exceptIsErr]
  · intro rr ct
    rfl

theorem startsWith_append (pre p q : Str) (h : startsWithStr pre p = true) :
    startsWithStr pre (p ++ q) = true := by
  rw [startsWithStr, List.isPrefixOf_iff_prefix] at h ⊢
  exact h.trans (List.prefix_append p q)

theorem isAbsB_append (p q : Str) (h : isAbsB p = true) : isAbsB (p ++ q) = true := by
  rw [isAbsB, Bool.or_eq_true] at h ⊢
  rcases h with h | h
  · exact Or.inl (startsWith_append _ p q h)
  · exact Or.inr (startsWith_append _ p q h)

theorem hasMarkerB_false_iff (l : Str) :
    hasMarkerB l = false ↔ ¬ markerDE <:+: l ∧ ¬ markerEN <:+: l := by
  rw [hasMarkerB, Bool.or_eq_false_iff]
  rw [← Bool.not_eq_true, ← Bool.not_eq_true, containsSub_iff, containsSub_iff]

theorem replaceFirst_of_pre (pat rep s : Str) (h : pat <+: s) (hs : s ≠ []) :
    replaceFirst pat rep s = rep ++ s.drop pat.length := by
  cases s with
  | nil => exact absurd rfl hs
  | cons c t =>
      rw [replaceFirst, if_pos (List.isPrefixOf_iff_prefix.mpr h)]

theorem replaceFirst_of_no (pat rep s : Str) (h : ¬ pat <:+: s) : replaceFirst pat rep s = s := by
  induction s with
  | nil => rfl
  | cons c t ih =>
      have h1 : pat.isPrefixOf (c :: t) = false := by
        rw [← Bool.not_eq_true, List.isPrefixOf_iff_prefix]
        exact fun hp => h hp.isInfix
      rw [replaceFirst, h1]
      simp only [Bool.false_eq_true, if_false]
      rw [ih (fun hi => h (hi.trans (List.suffix_cons c t).isInfix))]

theorem replaceQParam_end (param p : Str) (hq : '?' ∉ param) (h : ¬ param <:+: p) :
    replaceQParam param (p ++ '?' :: param) = p ++ ['?'] := by
  induction p with
  | nil =>
      show replaceQParam param ('?' :: param) = ['?']
      have hpre : ('?' :: param).isPrefixOf ('?' :: param) = true :=
        List.isPrefixOf_iff_prefix.mpr (List.prefix_refl _)
      have hd : ('?' :: param).drop (param.length + 1) = [] := by
        simp [List.drop_succ_cons, List.drop_length]
      simp only [replaceQParam, hpre, if_true, hd]
  | cons c p2 ih =>
      have hnotpre : ('?' :: param).isPrefixOf (c :: (p2 ++ '?' :: param)) = false := by
        rw [← Bool.not_eq_true, List.isPrefixOf_iff_prefix]
        intro hp
        rw [List.cons_prefix_cons] at hp
        obtain ⟨hc, hp2⟩ := hp
        rcases preSplit param p2 ('?' :: param) hp2 with h1 | ⟨h1, h2⟩
        · exact h (h1.isInfix.trans (List.suffix_cons c p2).isInfix)
        · by_cases hlen : param.length ≤ p2.length
          · apply h
            rw [← h1.eq_of_length_le hlen]
            exact (List.suffix_cons c p2).isInfix
          · have hklt : p2.length < param.length := by omega
            rw [List.drop_eq_getElem_cons hklt, List.cons_prefix_cons] at h2
            exact hq (h2.1 ▸ List.getElem_mem hklt)
      show replaceQParam param (c :: (p2 ++ '?' :: param)) = (c :: p2) ++ ['?']
      simp only [replaceQParam, hnotpre, Bool.false_eq_true, if_false]
      rw [ih (fun hi => h (hi.trans (List.suffix_cons c p2).isInfix))]
      rfl

theorem ampNotInf (param p : Str) (h : ¬ param <:+: p)
    (hc : ¬ ('&' :: param) <:+: (['?'] : Str))
    (hk : ∀ k, k < ('&' :: param).length → 0 < k → ¬ ('&' :: param).drop k <+: (['?'] : Str)) :
    ¬ ('&' :: param) <:+: p ++ ['?'] :=
  constInfSafeR _ p ['?'] hc hk
    (fun hi => h ((List.suffix_cons '&' param).isInfix.trans hi))

theorem cleanTrans_end (param p : Str) (hq : '?' ∉ param)
    (hamp : ¬ ('&' :: param) <:+: (p ++ ['?'])) (h : ¬ param <:+: p) :
    cleanTrans param (p ++ '?' :: param) = p := by
  unfold cleanTrans
  rw [replaceQParam_end param p hq h]
  rw [replaceFirst_of_no _ _ _ hamp]
  unfold stripQEnd
  rw [List.getLast?_concat]
  simp [List.dropLast_concat]

theorem markerDE_suffix_inf (p : Str) : markerDE <:+: p ++ '?' :: markerDE := by
  have h : p ++ '?' :: markerDE = (p ++ ['?']) ++ markerDE := by simp
  rw [h]
  exact (List.suffix_append _ _).isInfix

theorem markerEN_suffix_inf (p : Str) : markerEN <:+: p ++ '?' :: markerEN := by
  have h : p ++ '?' :: markerEN = (p ++ ['?']) ++ markerEN := by simp
  rw [h]
  exact (List.suffix_append _ _).isInfix

theorem tRL_translate_de (p : Str) (habs : isAbsB p = true) (hm : hasMarkerB p = false) :
    transformRecipeLink (p ++ '?' :: markerDE) = googleWrap (strL (r"de")) p := by
  obtain ⟨hDE, hEN⟩ := (hasMarkerB_false_iff p).mp hm
  have habs2 : isAbsB (p ++ '?' :: markerDE) = true := isAbsB_append _ _ habs
  have hmDE : containsSub (p ++ '?' :: markerDE) markerDE = true :=
    (containsSub_iff _ _).mpr (markerDE_suffix_inf p)
  have hmk : hasMarkerB (p ++ '?' :: markerDE) = true := by
    rw [hasMarkerB, hmDE, Bool.true_or]
  have hclean : cleanTrans markerDE (p ++ '?' :: markerDE) = p := by
    refine cleanTrans_end markerDE p (by decide) ?_ hDE
    refine ampNotInf markerDE p hDE (by decide) (by decide)
  rw [transformRecipeLink, habs2, hmk, Bool.and_self, if_pos rfl, if_pos hmDE, hclean]

theorem tRL_translate_en (p : Str) (habs : isAbsB p = true) (hm : hasMarkerB p = false) :
    transformRecipeLink (p ++ '?' :: markerEN) = googleWrap (strL (r"en")) p := by
  obtain ⟨hDE, hEN⟩ := (hasMarkerB_false_iff p).mp hm
  have habs2 : isAbsB (p ++ '?' :: markerEN) = true := isAbsB_append _ _ habs
  have hmEN : containsSub (p ++ '?' :: markerEN) markerEN = true :=
    (containsSub_iff _ _).mpr (markerEN_suffix_inf p)
  have hnoDE : ¬ markerDE <:+: p ++ '?' :: markerEN := by
    have hspan : ∀ k, k < markerDE.length → 0 < k →
        ¬ markerDE.drop k <+: ('?' :: markerEN) := by decide
    exact noInfAppend markerDE p ('?' :: markerEN) hDE (by decide)
      (fun k h1 h2 hand => hspan k h1 h2 hand.2)
  have hmDE : containsSub (p ++ '?' :: markerEN) markerDE = false := by
    rw [← Bool.not_eq_true, containsSub_iff]
    exact hnoDE
  have hmk : hasMarkerB (p ++ '?' :: markerEN) = true := by
    rw [hasMarkerB, hmEN, Bool.or_true]
  have hclean : cleanTrans markerEN (p ++ '?' :: markerEN) = p := by
    refine cleanTrans_end markerEN p (by decide) ?_ hEN
    refine ampNotInf markerEN p hEN (by decide) (by decide)
  rw [transformRecipeLink, habs2, hmk, Bool.and_self, if_pos rfl, hmDE]
  simp only [Bool.false_eq_true, if_false]
  rw [hclean]

theorem tRL_abs_noMark (l : Str) (habs : isAbsB l = true) (hm : hasMarkerB l = false) :
    transformRecipeLink l = l := by
  rw [transformRecipeLink, hm, Bool.and_false]
  simp only [Bool.false_eq_true, if_false]
  rw [habs, if_pos rfl]

theorem startsWith_take_ne (pre l : Str) (n : Nat) (hn : n ≤ pre.length)
    (h : l.take n ≠ pre.take n) : startsWithStr pre l = false := by
  rw [← Bool.not_eq_true, startsWithStr, List.isPrefixOf_iff_prefix]
  intro hp
  apply h
  rw [List.prefix_iff_eq_take.mp hp, List.take_take]
  rw [Nat.min_eq_left hn]

theorem appendNeNil (a b : Str) (h : a ≠ []) : a ++ b ≠ [] :=
  fun hc => h (List.append_eq_nil.mp hc).1

theorem isAbs_false_of_head (l : Str) (h : l.take 1 = ['/']) : isAbsB l = false := by
  rw [isAbsB, Bool.or_eq_false_iff]
  constructor
  · refine startsWith_take_ne _ _ 1 (by decide) ?_
    rw [h]
    decide
  · refine startsWith_take_ne _ _ 1 (by decide) ?_
    rw [h]
    decide

theorem tRL_reiskoch (l : Str) (h : startsWithStr (strL (r"/reiskoch/")) l = true) :
    transformRecipeLink l = strL (r"https://www.der-reiskoch.de/") ++ l.drop 10 := by
  obtain ⟨t, rfl⟩ := List.isPrefixOf_iff_prefix.mp h
  have habs : isAbsB (strL (r"/reiskoch/") ++ t) = false := by
    refine isAbs_false_of_head _ ?_
    rw [List.take_append_of_le_length (by decide)]
    decide
  rw [transformRecipeLink, habs, Bool.false_and]
  simp only [Bool.false_eq_true, if_false]
  rw [h, if_pos rfl]
  rw [replaceFirst_of_pre _ _ _ (List.isPrefixOf_iff_prefix.mp h)
    (appendNeNil _ t (by decide))]
  rw [show (strL (r"/reiskoch/")).length = 10 from by decide]

theorem tRL_pdf (l : Str) (h : startsWithStr (strL (r"/aa-pdf/")) l = true) :
    transformRecipeLink l =
      strL (r"https://www.ahaan-thai.de/pdf/andreas-ayasse/") ++ l.drop 8 := by
  obtain ⟨t, rfl⟩ := List.isPrefixOf_iff_prefix.mp h
  have habs : isAbsB (strL (r"/aa-pdf/") ++ t) = false := by
    refine isAbs_false_of_head _ ?_
    rw [List.take_append_of_le_length (by decide)]
    decide
  have hrk : startsWithStr (strL (r"/reiskoch/")) (strL (r"/aa-pdf/") ++ t) = false := by
    refine startsWith_take_ne _ _ 2 (by decide) ?_
    rw [List.take_append_of_le_length (by decide)]
    decide
  rw [transformRecipeLink, habs, Bool.false_and]
  simp only [Bool.false_eq_true, if_false]
  rw [hrk]
  simp only [Bool.false_eq_true, if_false]
  rw [h, if_pos rfl]
  rw [replaceFirst_of_pre _ _ _ (List.isPrefixOf_iff_prefix.mp h)
    (appendNeNil _ t (by decide))]
  rw [show (strL (r"/aa-pdf/")).length = 8 from by decide, ← List.append_assoc]
  rw [show baseUrl ++ strL (r"/pdf/andreas-ayasse/") =
    strL (r"https://www.ahaan-thai.de/pdf/andreas-ayasse/") from by decide]

theorem tRL_youtube (l : Str) (h : startsWithStr (strL (r"/youtube/")) l = true) :
    transformRecipeLink l = strL (r"https://www.youtube.com/watch?v=") ++ l.drop 9 := by
  obtain ⟨t, rfl⟩ := List.isPrefixOf_iff_prefix.mp h
  have habs : isAbsB (strL (r"/youtube/") ++ t) = false := by
    refine isAbs_false_of_head _ ?_
    rw [List.take_append_of_le_length (by decide)]
    decide
  have hrk : startsWithStr (strL (r"/reiskoch/")) (strL (r"/youtube/") ++ t) = false := by
    refine startsWith_take_ne _ _ 2 (by decide) ?_
    rw [List.take_append_of_le_length (by decide)]
    decide
  have hpd : startsWithStr (strL (r"/aa-pdf/")) (strL (r"/youtube/") ++ t) = false := by
    refine startsWith_take_ne _ _ 2 (by decide) ?_
    rw [List.take_append_of_le_length (by decide)]
    decide
  rw [transformRecipeLink, habs, Bool.false_and]
  simp only [Bool.false_eq_true, if_false]
  rw [hrk]
  simp only [Bool.false_eq_true, if_false]
  rw [hpd]
  simp only [Bool.false_eq_true, if_false]
  rw [h, if_pos rfl]
  rw [replaceFirst_of_pre _ _ _ (List.isPrefixOf_iff_prefix.mp h)
    (appendNeNil _ t (by decide))]
  rw [show (strL (r"/youtube/")).length = 9 from by decide]
  rfl

theorem tRL_fallback (l : Str) (habs : isAbsB l = false)
    (h1 : startsWithStr (strL (r"/reiskoch/")) l = false)
    (h2 : startsWithStr (strL (r"/aa-pdf/")) l = false)
    (h3 : startsWithStr (strL (r"/youtube/")) l = false) :
    transformRecipeLink l = baseUrl ++ l := by
  rw [transformRecipeLink, habs, Bool.false_and]
  simp only [Bool.false_eq_true, if_false]
  rw [h1]
  simp only [Bool.false_eq_true, if_false]
  rw [h2]
  simp only [Bool.false_eq_true, if_false]
  rw [h3]
  simp only [Bool.false_eq_true, if_false]

theorem ens_of_hashq (u : Str)
    (h : (containsSub u (strL (r"#")) || containsSub u (strL (r"?"))) = true) :
    ensureTrailingSlash u = u := by
  rw [ensureTrailingSlash, h, if_pos rfl]

theorem ens_cases (u : Str)
    (h : (containsSub u (strL (r"#")) || containsSub u (strL (r"?"))) = false) :
    (u.getLast? = some '/' → ensureTrailingSlash u = u) ∧
    (u.getLast? ≠ some '/' → ensureTrailingSlash u = u ++ ['/']) ∧
    (ensureTrailingSlash u).getLast? = some '/' := by
  rw [ensureTrailingSlash, h]
  simp only [Bool.false_eq_true, if_false]
  by_cases hl : u.getLast? = some '/'
  · rw [if_pos hl]
    exact ⟨fun _ => rfl, fun hc => absurd hl hc, hl⟩
  · rw [if_neg hl]
    exact ⟨fun hc => absurd hc hl, fun _ => rfl, List.getLast?_concat u⟩

theorem relGet_transformLang (f : RelField) (lg : LangData) :
    relGet f (transformLang lg) = transformField true (relGet f lg) := by
  cases f <;> rfl

theorem processEntry_lang (e : Entry) (lg : LangData) :
    (e.de = some lg → (processEntry e).de = some (transformLang lg)) ∧
    (e.en = some lg → (processEntry e).en = some (transformLang lg)) := by
  constructor
  · intro h
    show e.de.map transformLang = _
    rw [h]
    rfl
  · intro h
    show e.en.map transformLang = _
    rw [h]
    rfl

/-- Claim C6 (amended): the link classification behaves as claimed in
priority order — except that only a marker introduced by `?` (or `&`) is
removed from the embedded target URL; a marker occurring elsewhere in an
absolute URL still triggers the translate rewrite but survives inside the
embedded URL (see the counterexample).  For an absolute marker-free `p`,
`p ++ "?trans=TH-DE"` / `"?trans=TH-EN"` maps to the Google-Translate
proxy over `p` with `tl=de` / `tl=en`; absolute marker-free links pass
unchanged; `/reiskoch/`, `/aa-pdf/`, `/youtube/` and the fallback rewrite
as claimed; and the seven relationship fields are routed through the
trailing-slash rule (slash appended unless the URL ends in `/` or
contains `#` or `?`), the recipes field without it. -/
theorem claim_c6_amended :
    (∀ p : Str, isAbsB p = true → hasMarkerB p = false →
      transformRecipeLink (p ++ '?' :: markerDE) = googleWrap (strL (r"de")) p ∧
      transformRecipeLink (p ++ '?' :: markerEN) = googleWrap (strL (r"en")) p) ∧
    (∀ l : Str, isAbsB l = true → hasMarkerB l = false → transformRecipeLink l = l) ∧
    (∀ l : Str, startsWithStr (strL (r"/reiskoch/")) l = true →
      transformRecipeLink l = strL (r"https://www.der-reiskoch.de/") ++ l.drop 10) ∧
    (∀ l : Str, startsWithStr (strL (r"/aa-pdf/")) l = true →
      transformRecipeLink l =
        strL (r"https://www.ahaan-thai.de/pdf/andreas-ayasse/") ++ l.drop 8) ∧
    (∀ l : Str, startsWithStr (strL (r"/youtube/")) l = true →
      transformRecipeLink l = strL (r"https://www.youtube.com/watch?v=") ++ l.drop 9) ∧
    (∀ l : Str, isAbsB l = false → startsWithStr (strL (r"/reiskoch/")) l = false →
      startsWithStr (strL (r"/aa-pdf/")) l = false →
      startsWithStr (strL (r"/youtube/")) l = false →
      transformRecipeLink l = baseUrl ++ l) ∧
    (∀ u : Str, (containsSub u (strL (r"#")) || containsSub u (strL (r"?"))) = true →
      ensureTrailingSlash u = u) ∧
    (∀ u : Str, (containsSub u (strL (r"#")) || containsSub u (strL (r"?"))) = false →
      (u.getLast? = some '/' → ensureTrailingSlash u = u) ∧
      (u.getLast? ≠ some '/' → ensureTrailingSlash u = u ++ ['/']) ∧
      (ensureTrailingSlash u).getLast? = some '/') ∧
    (∀ (f : RelField) (lg : LangData),
      relGet f (transformLang lg) = transformField true (relGet f lg)) ∧
    (∀ lg : LangData, (transformLang lg).recipes = transformField false lg.recipes) ∧
    (∀ (e : Entry) (lg : LangData),
      (e.de = some lg → (processEntry e).de = some (transformLang lg)) ∧
      (e.en = some lg → (processEntry e).en = some (transformLang lg))) :=
  ⟨fun p h1 h2 => ⟨tRL_translate_de p h1 h2, tRL_translate_en p h1 h2⟩,
   tRL_abs_noMark, tRL_reiskoch, tRL_pdf, tRL_youtube, tRL_fallback,
   ens_of_hashq, ens_cases, relGet_transformLang,
   fun _ => rfl, processEntry_lang⟩

/-- Claim C6 counterexample: in the absolute link
`https://x.th/ptrans=TH-DE` the marker is not introduced by `?` or `&`,
so the cleanup regexes match nothing: the link is wrapped in the
translate proxy with the marker still inside the embedded target URL,
while the claim requires the marker to be removed from it. -/
theorem claim_c6_counterexample :
    transformRecipeLink (strL (r"https://x.th/ptrans=TH-DE")) =
      googleWrap (strL (r"de")) (strL (r"https://x.th/ptrans=TH-DE")) ∧
    containsSub (strL (r"https://x.th/ptrans=TH-DE")) markerDE = true := by
  refine ⟨by decide, by decide⟩

/-- Witness for claim C6 on the spec's translate-link scenario and a
trailing-slash case. -/
theorem claim_c6_witness :
    transformRecipeLink (strL (r"https://site.th/page") ++ '?' :: markerDE) =
      googleWrap (strL (r"de")) (strL (r"https://site.th/page")) ∧
    ensureTrailingSlash (strL (r"https://a.b/c")) = strL (r"https://a.b/c") ++ ['/'] := by
  have h := claim_c6_amended
  refine ⟨(h.1 (strL (r"https://site.th/page")) (by decide) (by decide)).1, ?_⟩
  exact (h.2.2.2.2.2.2.2.1 (strL (r"https://a.b/c")) (by decide)).2.1 (by decide)

theorem tRL_presv (l : Str) (hm : hasMarkerB l = false) :
    isAbsB (transformRecipeLink l) = true ∧ hasMarkerB (transformRecipeLink l) = false := by
  obtain ⟨hDE, hEN⟩ := (hasMarkerB_false_iff l).mp hm
  by_cases habs : isAbsB l = true
  · rw [tRL_abs_noMark l habs hm]
    exact ⟨habs, hm⟩
  · rw [Bool.not_eq_true] at habs
    by_cases h1 : startsWithStr (strL (r"/reiskoch/")) l = true
    · rw [tRL_reiskoch l h1]
      refine ⟨?_, ?_⟩
      · rw [isAbsB, Bool.or_eq_true]
        exact Or.inr (startsWith_append _ _ _ (by decide))
      · refine (hasMarkerB_false_iff _).mpr ⟨?_, ?_⟩
        · exact constInfSafeL markerDE _ _ (by decide) (by decide)
            (fun hi => hDE (hi.trans (List.drop_suffix 10 l).isInfix))
        · exact constInfSafeL markerEN _ _ (by decide) (by decide)
            (fun hi => hEN (hi.trans (List.drop_suffix 10 l).isInfix))
    · rw [Bool.not_eq_true] at h1
      by_cases h2 : startsWithStr (strL (r"/aa-pdf/")) l = true
      · rw [tRL_pdf l h2]
        refine ⟨?_, ?_⟩
        · rw [isAbsB, Bool.or_eq_true]
          exact Or.inr (startsWith_append _ _ _ (by decide))
        · refine (hasMarkerB_false_iff _).mpr ⟨?_, ?_⟩
          · exact constInfSafeL markerDE _ _ (by decide) (by decide)
              (fun hi => hDE (hi.trans (List.drop_suffix 8 l).isInfix))
          · exact constInfSafeL markerEN _ _ (by decide) (by decide)
              (fun hi => hEN (hi.trans (List.drop_suffix 8 l).isInfix))
      · rw [Bool.not_eq_true] at h2
        by_cases h3 : startsWithStr (strL (r"/youtube/")) l = true
        · rw [tRL_youtube l h3]
          refine ⟨?_, ?_⟩
          · rw [isAbsB, Bool.or_eq_true]
            exact Or.inr (startsWith_append _ _ _ (by decide))
          · refine (hasMarkerB_false_iff _).mpr ⟨?_, ?_⟩
            · exact constInfSafeL markerDE _ _ (by decide) (by decide)
                (fun hi => hDE (hi.trans (List.drop_suffix 9 l).isInfix))
            · exact constInfSafeL markerEN _ _ (by decide) (by decide)
                (fun hi => hEN (hi.trans (List.drop_suffix 9 l).isInfix))
        · rw [Bool.not_eq_true] at h3
          rw [tRL_fallback l habs h1 h2 h3]
          refine ⟨?_, ?_⟩
          · rw [isAbsB, Bool.or_eq_true]
            exact Or.inr (startsWith_append _ _ _ (by decide))
          · refine (hasMarkerB_false_iff _).mpr ⟨?_, ?_⟩
            · exact constInfSafeL markerDE _ _ (by decide) (by decide) hDE
            · exact constInfSafeL markerEN _ _ (by decide) (by decide) hEN

theorem containsSub_single_false (u : Str) (c : Char) (h : containsSub u [c] = false) :
    c ∉ u := by
  rw [← Bool.not_eq_true, containsSub_iff, singletonInf] at h
  exact h

theorem hashq_append_slash (u : Str)
    (h : (containsSub u (strL (r"#")) || containsSub u (strL (r"?"))) = false) :
    (containsSub (u ++ ['/']) (strL (r"#")) || containsSub (u ++ ['/']) (strL (r"?"))) = false := by
  rw [Bool.or_eq_false_iff] at h ⊢
  obtain ⟨hh, hq⟩ := h
  have e1 : strL (r"#") = ['#'] := by decide
  have e2 : strL (r"?") = ['?'] := by decide
  rw [e1] at hh ⊢
  rw [e2] at hq ⊢
  constructor
  · rw [← Bool.not_eq_true, containsSub_iff, singletonInf]
    have := containsSub_single_false u '#' hh
    simp [this]
  · rw [← Bool.not_eq_true, containsSub_iff, singletonInf]
    have := containsSub_single_false u '?' hq
    simp [this]

theorem ens_idem (u : Str) :
    ensureTrailingSlash (ensureTrailingSlash u) = ensureTrailingSlash u := by
  by_cases h : (containsSub u (strL (r"#")) || containsSub u (strL (r"?"))) = true
  · rw [ens_of_hashq u h, ens_of_hashq u h]
  · rw [Bool.not_eq_true] at h
    obtain ⟨ha, hb, _⟩ := ens_cases u h
    by_cases hl : u.getLast? = some '/'
    · rw [ha hl, ha hl]
    · rw [hb hl]
      obtain ⟨ha2, _, _⟩ := ens_cases (u ++ ['/']) (hashq_append_slash u h)
      exact ha2 (List.getLast?_concat u)

theorem ens_presv (u : Str) (habs : isAbsB u = true) (hm : hasMarkerB u = false) :
    isAbsB (ensureTrailingSlash u) = true ∧ hasMarkerB (ensureTrailingSlash u) = false := by
  by_cases h : (containsSub u (strL (r"#")) || containsSub u (strL (r"?"))) = true
  · rw [ens_of_hashq u h]
    exact ⟨habs, hm⟩
  · rw [Bool.not_eq_true] at h
    obtain ⟨ha, hb, _⟩ := ens_cases u h
    by_cases hl : u.getLast? = some '/'
    · rw [ha hl]
      exact ⟨habs, hm⟩
    · rw [hb hl]
      obtain ⟨hDE, hEN⟩ := (hasMarkerB_false_iff u).mp hm
      refine ⟨isAbsB_append _ _ habs, (hasMarkerB_false_iff _).mpr ⟨?_, ?_⟩⟩
      · exact constInfSafeR markerDE u ['/'] (by decide) (by decide) hDE
      · exact constInfSafeR markerEN u ['/'] (by decide) (by decide) hEN

theorem applyLink_idem (b : Bool) (u : Str) (hm : hasMarkerB u = false) :
    applyLink b (applyLink b u) = applyLink b u := by
  obtain ⟨h1, h2⟩ := tRL_presv u hm
  cases b with
  | false =>
      show transformRecipeLink (transformRecipeLink u) = transformRecipeLink u
      exact tRL_abs_noMark _ h1 h2
  | true =>
      show ensureTrailingSlash (transformRecipeLink
        (ensureTrailingSlash (transformRecipeLink u))) =
        ensureTrailingSlash (transformRecipeLink u)
      obtain ⟨h3, h4⟩ := ens_presv (transformRecipeLink u) h1 h2
      rw [tRL_abs_noMark _ h3 h4]
      exact ens_idem _

theorem transformUrlSL_idem (b : Bool) (v : StrOrList)
    (hm : fieldMarkerFree (some v) = true) :
    transformUrlSL b (transformUrlSL b v) = transformUrlSL b v := by
  cases v with
  | one u =>
      have hu : hasMarkerB u = false := by
        simpa [fieldMarkerFree, strMarkerFree] using hm
      show StrOrList.one (applyLink b (applyLink b u)) = StrOrList.one (applyLink b u)
      rw [applyLink_idem b u hu]
  | many vs =>
      show StrOrList.many ((vs.map (applyLink b)).map (applyLink b)) =
        StrOrList.many (vs.map (applyLink b))
      rw [List.map_map]
      refine congrArg _ (List.map_congr_left ?_)
      intro u hu
      have hmu : hasMarkerB u = false := by
        rw [fieldMarkerFree] at hm
        have := (List.all_eq_true.mp hm) u hu
        simpa [strMarkerFree] using this
      exact applyLink_idem b u hmu

theorem transformField_idem (b : Bool) (f : Option StrOrList)
    (hm : fieldMarkerFree f = true) :
    transformField b (transformField b f) = transformField b f := by
  cases f with
  | none => rfl
  | some v =>
      by_cases ht : truthySL v = true
      · rw [transformField, if_pos ht]
        by_cases ht2 : truthySL (transformUrlSL b v) = true
        · rw [transformField, if_pos ht2, transformUrlSL_idem b v hm]
        · rw [transformField, if_neg ht2]
      · rw [transformField, if_neg ht, transformField, if_neg ht]

theorem langExt (x y : LangData)
    (h1 : x.transcription = y.transcription) (h2 : x.summary = y.summary)
    (h3 : x.description = y.description) (h4 : x.tags = y.tags)
    (h5 : x.regions = y.regions) (h6 : x.recipes = y.recipes) (h7 : x.url = y.url)
    (h8 : x.usedBy = y.usedBy) (h9 : x.uses = y.uses) (h10 : x.fits = y.fits)
    (h11 : x.fittedBy = y.fittedBy) (h12 : x.variations = y.variations)
    (h13 : x.variationOf = y.variationOf) : x = y := by
  cases x
  cases y
  simp_all

theorem entryExt (x y : Entry)
    (h1 : x.thaiName = y.thaiName) (h2 : x.alternativeNames = y.alternativeNames)
    (h3 : x.imageUrl = y.imageUrl) (h4 : x.de = y.de) (h5 : x.en = y.en) : x = y := by
  cases x
  cases y
  simp_all

theorem recipeExt (x y : Recipe)
    (h1 : x.url_de = y.url_de) (h2 : x.url_en = y.url_en) (h3 : x.imageUrl = y.imageUrl)
    (h4 : x.title_de = y.title_de) (h5 : x.title_en = y.title_en)
    (h6 : x.transcript_de = y.transcript_de) (h7 : x.thai = y.thai)
    (h8 : x.region = y.region) : x = y := by
  cases x
  cases y
  simp_all

theorem transformLang_idem (lg : LangData) (hm : langMarkerFree lg = true) :
    transformLang (transformLang lg) = transformLang lg := by
  have hm2 := hm
  simp only [langMarkerFree, Bool.and_eq_true] at hm2
  obtain ⟨⟨⟨⟨⟨⟨⟨m1, m2⟩, m3⟩, m4⟩, m5⟩, m6⟩, m7⟩, m8⟩ := hm2
  refine langExt _ _ rfl rfl rfl rfl rfl ?_ ?_ ?_ ?_ ?_ ?_ ?_ ?_
  · exact transformField_idem false lg.recipes m1
  · exact transformField_idem true lg.url m2
  · exact transformField_idem true lg.usedBy m3
  · exact transformField_idem true lg.uses m4
  · exact transformField_idem true lg.fits m5
  · exact transformField_idem true lg.fittedBy m6
  · exact transformField_idem true lg.variations m7
  · exact transformField_idem true lg.variationOf m8

theorem processEntry_img_idem (e : Entry) :
    (processEntry (processEntry e)).imageUrl = (processEntry e).imageUrl := by
  have hpe : ∀ x : Entry, (processEntry x).imageUrl =
      (match x.imageUrl with
       | some v => if !v.isEmpty && !startsWithStr (strL (r"http")) v
           then some (imageBaseUrl ++ v) else some v
       | none => none) := fun _ => rfl
  rw [hpe, hpe]
  cases e.imageUrl with
  | none => rfl
  | some v =>
      by_cases hc : (!v.isEmpty && !startsWithStr (strL (r"http")) v) = true
      · simp only [hc, if_true]
        have h1 : startsWithStr (strL (r"http")) (imageBaseUrl ++ v) = true :=
          startsWith_append (strL (r"http")) imageBaseUrl v (by decide)
        have h2 : (!(imageBaseUrl ++ v).isEmpty &&
            !startsWithStr (strL (r"http")) (imageBaseUrl ++ v)) = false := by
          rw [h1]
          simp
        simp only [h2, Bool.false_eq_true, if_false]
      · rw [Bool.not_eq_true] at hc
        simp only [hc, Bool.false_eq_true, if_false]

theorem processEntry_idem (e : Entry) (hm : entryMarkerFree e = true) :
    processEntry (processEntry e) = processEntry e := by
  rw [entryMarkerFree, Bool.and_eq_true] at hm
  obtain ⟨hd, he⟩ := hm
  refine entryExt _ _ rfl rfl (processEntry_img_idem e) ?_ ?_
  · show (e.de.map transformLang).map transformLang = e.de.map transformLang
    cases hde : e.de with
    | none => rfl
    | some lg =>
        rw [hde] at hd
        show some (transformLang (transformLang lg)) = some (transformLang lg)
        rw [transformLang_idem lg hd]
  · show (e.en.map transformLang).map transformLang = e.en.map transformLang
    cases hen : e.en with
    | none => rfl
    | some lg =>
        rw [hen] at he
        show some (transformLang (transformLang lg)) = some (transformLang lg)
        rw [transformLang_idem lg he]

theorem processBookData_idem (b : Book) :
    processBookData (processBookData b) = processBookData b := by
  cases hb : b.target with
  | none =>
      have h : processBookData b = b := by simp [processBookData, hb]
      rw [h, h]
  | some t =>
      by_cases hc : (b.shop == some (strL (r"amazon")) && !t.isEmpty &&
          !(trimStr t).isEmpty) = true
      · have h1 : processBookData b =
            { b with url := some (amazonUrlPre ++ t), target := none } := by
          simp [processBookData, hb, hc]
        rw [h1]
        simp [processBookData]
      · have h1 : processBookData b = b := by
          simp only [processBookData, hb]
          simp only [hc, Bool.false_eq_true, if_false]
        rw [h1, h1]

theorem procUrlField_http (v : Str) (h : startsWithStr (strL (r"http")) v = true) :
    procUrlField (some v) = some v := by
  simp [procUrlField, h]

theorem procImgField_http (v : Str) (h : startsWithStr (strL (r"http")) v = true) :
    procImgField (some v) = some v := by
  simp [procImgField, h]

theorem procUrlField_idem (f : Option Str) :
    procUrlField (procUrlField f) = procUrlField f := by
  cases f with
  | none => rfl
  | some v =>
      by_cases hc : (!v.isEmpty && !startsWithStr (strL (r"http")) v) = true
      · rw [procUrlField, if_pos hc]
        have h1 : startsWithStr (strL (r"http")) (procRelUrl v) = true := by
          rw [procRelUrl]
          exact startsWith_append (strL (r"http")) urlPreDeEn _ (by decide)
        exact procUrlField_http _ h1
      · rw [procUrlField, if_neg hc, procUrlField, if_neg hc]

theorem procImgField_idem (f : Option Str) :
    procImgField (procImgField f) = procImgField f := by
  cases f with
  | none => rfl
  | some v =>
      by_cases hc : (!v.isEmpty && !startsWithStr (strL (r"http")) v) = true
      · rw [procImgField, if_pos hc]
        have h1 : startsWithStr (strL (r"http")) (procImgUrl v) = true := by
          rw [procImgUrl]
          exact startsWith_append (strL (r"http")) imgUrlBase _ (by decide)
        exact procImgField_http _ h1
      · rw [procImgField, if_neg hc, procImgField, if_neg hc]

theorem processRecipeUrls_idem (rec : Recipe) :
    processRecipeUrls (processRecipeUrls rec) = processRecipeUrls rec := by
  refine recipeExt _ _ ?_ ?_ ?_ rfl rfl rfl rfl rfl
  · exact procUrlField_idem rec.url_de
  · exact procUrlField_idem rec.url_en
  · exact procImgField_idem rec.imageUrl

/-- Claim C3 (amended): the book and recipe transformers are idempotent on
every record, and `http`-prefixed values pass unchanged through the
recipe-URL fields; the encyclopedia transformer is idempotent on entries
whose link values contain no `trans=TH-DE`/`trans=TH-EN` marker.  (On a
relative link that carries such a marker it is not idempotent — see the
counterexample — and encyclopedia link fields may change `http`-prefixed
values: translate-marker rewriting and trailing-slash enforcement.) -/
theorem claim_c3_amended :
    (∀ b : Book, processBookData (processBookData b) = processBookData b) ∧
    (∀ rec : Recipe, processRecipeUrls (processRecipeUrls rec) = processRecipeUrls rec) ∧
    (∀ v : Str, startsWithStr (strL (r"http")) v = true →
      procUrlField (some v) = some v ∧ procImgField (some v) = some v) ∧
    (∀ e : Entry, entryMarkerFree e = true →
      processEntry (processEntry e) = processEntry e) :=
  ⟨processBookData_idem, processRecipeUrls_idem,
   fun v h => ⟨procUrlField_http v h, procImgField_http v h⟩, processEntry_idem⟩

/-- Claim C3 counterexample: `processEntry` is not idempotent.  A relative
recipe link holding a translate marker (`/x?trans=TH-DE`) is prefixed with
the site base on the first pass; the result is an absolute URL still
containing the marker, which the second pass rewrites into the
Google-Translate proxy. -/
theorem claim_c3_counterexample :
    processEntry (processEntry
      ⟨none, none, none,
        some ⟨none, none, none, none, none,
          some (StrOrList.one (strL (r"/x?trans=TH-DE"))),
          none, none, none, none, none, none, none⟩, none⟩) ≠
    processEntry
      ⟨none, none, none,
        some ⟨none, none, none, none, none,
          some (StrOrList.one (strL (r"/x?trans=TH-DE"))),
          none, none, none, none, none, none, none⟩, none⟩ := by decide

/-- Witness for claim C3 at concrete inputs. -/
theorem claim_c3_witness :
    procUrlField (some (strL (r"http://a"))) = some (strL (r"http://a")) ∧
    processEntry (processEntry
      ⟨none, none, none,
        some ⟨none, none, none, none, none, none,
          some (StrOrList.one (strL (r"/page"))),
          none, none, none, none, none, none⟩, none⟩) =
    processEntry
      ⟨none, none, none,
        some ⟨none, none, none, none, none, none,
          some (StrOrList.one (strL (r"/page"))),
          none, none, none, none, none, none⟩, none⟩ := by
  constructor
  · exact (claim_c3_amended.2.2.1 (strL (r"http://a")) (by decide)).1
  · exact claim_c3_amended.2.2.2 _ (by decide)
